import Mathlib

/-!
# Function objects, combination operators and Newton's method (`main.h`)

A shallow embedding of `src/main.h`.

* `double` is embedded twice.  In exact arithmetic it is an arbitrary field
  `K` (linearly ordered where the code compares), so the development can be
  run on `ℚ` and read on `ℝ`; the library function `exp` is a parameter.
  Division and `pow` then follow the field, also at a zero divisor, where the
  code produces an infinity or NaN.  The type `Double K` adds the signed
  zeros, the infinities and NaN of IEEE 754 to the numbers of `K`, and the
  namespace `IEEE` embeds the same classes and `NewtonMethod` on it; rounding,
  overflow and underflow stay out of the model.  The two embeddings agree on
  the trees without quotient and without `Power` of exponent below 1
  (`ieee_call_value`, `ieee_GetDeriv_value`); the statements that reach a zero
  divisor are made on `Double`.
* `int` is embedded as `Int`.  The only `int` arithmetic of the file that can
  leave the 32-bit range is made explicit with `wrapInt`.
* `std::shared_ptr<Function>` is embedded as the tree of the object it points
  to, so a handle is never null here; `std::any` as the sum type `Any`; a C++
  exception as `Except`.
-/

namespace CppMsu

/-! ## Machine integers and `pow` -/

/-- Result of 32-bit `int` arithmetic whose exact value is `n`: two's
complement wrap-around into `[-2^31, 2^31)`. -/
def wrapInt (n : Int) : Int :=
  (n + 2147483648) % 4294967296 - 2147483648

/-- The values an `int` can hold. -/
def isInt (n : Int) : Prop :=
  -2147483648 ≤ n ∧ n < 2147483648

instance (n : Int) : Decidable (isInt n) := by
  unfold isInt
  exact inferInstance

/-- The call `pow(x, n)` of `<cmath>` with an `int` exponent, in exact
arithmetic: the number `x^n`.  At a zero base with a negative exponent, where
`<cmath>` returns an infinity, it follows the field; `Double.pow` has the
infinity. -/
def pow {K : Type} [Field K] (x : K) (n : Int) : K :=
  x ^ n

/-! ## The class hierarchy -/

/-- The objects behind a `std::shared_ptr<Function>`: one constructor per
class of `main.h`, with the class's data members as fields. -/
inductive Function : Type
  | Const (_const : Int)
  | Ident
  | Power (_power : Int)
  | Exp (_power : Int)
  | Polynomial (_poly : List Int)
  | FunctionPlus (a b : Function)
  | FunctionMinus (a b : Function)
  | FunctionMultiply (a b : Function)
  | FunctionDivide (a b : Function)
  deriving DecidableEq

/-- The loop of `Polynomial::operator()`: `rest` holds `_poly[i], _poly[i+1], …`
and `polynom` is the accumulator.  The index `i` is a `Nat`: it stays in the
`int` range for a vector of fewer than `2^31` elements. -/
def polyCallLoop {K : Type} [Field K] (x : K) : List Int → Nat → K → K
  | [], _, polynom => polynom
  | c :: rest, i, polynom =>
      polyCallLoop x rest (i + 1) (polynom + (c : K) * pow x (i : Int))

/-- The loop of `Polynomial::GetDeriv`: `rest` holds `_poly[i], _poly[i+1], …`.
The product `_poly[i]*i` is an `int` product, converted to `double` after. -/
def polyDerivLoop {K : Type} [Field K] (x : K) : List Int → Nat → K → K
  | [], _, polynom => polynom
  | c :: rest, i, polynom =>
      polyDerivLoop x rest (i + 1)
        (polynom + ((wrapInt (c * (i : Int)) : Int) : K) * pow x ((i : Int) - 1))

/-- The virtual `operator()(double x)`. -/
def Function.call {K : Type} [Field K] (exp : K → K) : Function → K → K
  | .Const c, _ => (c : K)
  | .Ident, x => x
  | .Power n, x => pow x n
  | .Exp k, x => exp ((k : K) * x)
  | .Polynomial p, x => polyCallLoop x p 0 0
  | .FunctionPlus a b, x => a.call exp x + b.call exp x
  | .FunctionMinus a b, x => a.call exp x - b.call exp x
  | .FunctionMultiply a b, x => a.call exp x * b.call exp x
  | .FunctionDivide a b, x => a.call exp x / b.call exp x

/-- The virtual `GetDeriv(double x)`. -/
def Function.GetDeriv {K : Type} [Field K] (exp : K → K) : Function → K → K
  | .Const _, _ => 0
  | .Ident, _ => 1
  | .Power n, x => (n : K) * pow x (wrapInt (n - 1))
  | .Exp k, x => (k : K) * exp ((k : K) * x)
  | .Polynomial p, x => polyDerivLoop x (p.drop 1) 1 0
  | .FunctionPlus a b, x => a.GetDeriv exp x + b.GetDeriv exp x
  | .FunctionMinus a b, x => a.GetDeriv exp x - b.GetDeriv exp x
  | .FunctionMultiply a b, x =>
      a.GetDeriv exp x * b.call exp x + a.call exp x * b.GetDeriv exp x
  | .FunctionDivide a b, x =>
      a.GetDeriv exp x * b.call exp x
        - a.call exp x * b.GetDeriv exp x / pow (a.call exp x) 2

/-! ## `std::any` operands and the combination operators -/

/-- The values a `std::any` holds in this program. -/
inductive Any : Type
  | int (v : Int)
  | vectorInt (v : List Int)
  | cstr (s : String)
  | nullptr
  | function (f : Function)
  deriving DecidableEq

/-- The exceptions of the program. -/
inductive Exception : Type
  | bad_any_cast
  | logic_error
  deriving DecidableEq

/-- The cast `std::any_cast<std::shared_ptr<Function>>(a)`. -/
def anyCastFunction : Any → Except Exception Function
  | .function f => .ok f
  | _ => .error .bad_any_cast

/-- Constructor `FunctionPlus(std::any& a, std::any& b)`. -/
def newFunctionPlus (a b : Any) : Except Exception Function := do
  let fa ← anyCastFunction a
  let fb ← anyCastFunction b
  pure (.FunctionPlus fa fb)

/-- Constructor `FunctionMinus(std::any& a, std::any& b)`. -/
def newFunctionMinus (a b : Any) : Except Exception Function := do
  let fa ← anyCastFunction a
  let fb ← anyCastFunction b
  pure (.FunctionMinus fa fb)

/-- Constructor `FunctionMultiply(std::any& a, std::any& b)`. -/
def newFunctionMultiply (a b : Any) : Except Exception Function := do
  let fa ← anyCastFunction a
  let fb ← anyCastFunction b
  pure (.FunctionMultiply fa fb)

/-- Constructor `FunctionDivide(std::any& a, std::any& b)`. -/
def newFunctionDivide (a b : Any) : Except Exception Function := do
  let fa ← anyCastFunction a
  let fb ← anyCastFunction b
  pure (.FunctionDivide fa fb)

/-- The `try` block shared by the four operators: both casts, results
dropped; a `bad_any_cast` is caught and rethrown as `logic_error`. -/
def checkOperands (a b : Any) : Except Exception Unit :=
  match (do
      let _ ← anyCastFunction a
      let _ ← anyCastFunction b
      pure () : Except Exception Unit) with
  | .ok u => .ok u
  | .error .bad_any_cast => .error .logic_error
  | .error e => .error e

/-- The operator `operator+(std::any a, std::any b)`. -/
def operatorPlus (a b : Any) : Except Exception Function := do
  checkOperands a b
  newFunctionPlus a b

/-- The operator `operator-(std::any a, std::any b)`. -/
def operatorMinus (a b : Any) : Except Exception Function := do
  checkOperands a b
  newFunctionMinus a b

/-- The operator `operator*(std::any a, std::any b)`. -/
def operatorMultiply (a b : Any) : Except Exception Function := do
  checkOperands a b
  newFunctionMultiply a b

/-- The operator `operator/(std::any a, std::any b)`. -/
def operatorDivide (a b : Any) : Except Exception Function := do
  checkOperands a b
  newFunctionDivide a b

/-! ## Newton's method -/

/-- The `do … while` loop of `NewtonMethod` in exact arithmetic, entered with
the current `x0` and `step`; returns both at the exit.  `step` stays below
`iter` whenever it is incremented a second time, so the increment never
leaves the `int` range.  Where an iterate has a zero derivative the step
follows the field; `IEEE.NewtonLoop` has the infinite or NaN step of the
code and the exit of the loop on a NaN residual. -/
def NewtonLoop {K : Type} [LinearOrderedField K] (exp : K → K) (f : Function)
    (iter : Int) (eps : K) (x0 : K) (step : Int) : K × Int :=
  let x1 := x0 - f.call exp x0 / f.GetDeriv exp x0
  let step1 := step + 1
  if _h : abs (f.call exp x1) > eps ∧ step1 < iter then
    NewtonLoop exp f iter eps x1 step1
  else
    (x1, step1)
termination_by (iter - step).toNat
decreasing_by omega

/-- The function `NewtonMethod(f, x0, iter, eps)`. -/
def NewtonMethod {K : Type} [LinearOrderedField K] (exp : K → K) (f : Function)
    (x0 : K) (iter : Int) (eps : K) : K :=
  (NewtonLoop exp f iter eps x0 0).1

/-! ## Rendering -/

/-- The call `std::to_string(n)` on an `int`: its decimal digits, after a
minus sign when `n` is negative. -/
def to_string (n : Int) : String :=
  toString n

/-- The loop of `Polynomial::ToString`: `rest` holds `_poly[i], _poly[i+1], …`
and `polynom` is the string built so far. -/
def polyToStringLoop : List Int → Nat → String → String
  | [], _, polynom => polynom
  | c :: rest, i, polynom =>
      polyToStringLoop rest (i + 1)
        (polynom ++ ("+" ++ to_string c ++ "x^" ++ to_string (i : Int)))

/-- The virtual `ToString()`.  `Polynomial::ToString` reads `_poly[0]` before
its loop: on an empty vector the read is out of bounds and the result is
`none`. -/
def Function.ToString : Function → Option String
  | .Const c => some (to_string c)
  | .Ident => some "x"
  | .Power n => some ("x^" ++ to_string n)
  | .Exp k => some ("e^" ++ to_string k ++ "x")
  | .Polynomial p =>
      match p with
      | [] => none
      | c :: rest => some (polyToStringLoop rest 1 (to_string c))
  | .FunctionPlus a b => do
      let sa ← a.ToString
      let sb ← b.ToString
      pure (sa ++ "+" ++ sb)
  | .FunctionMinus a b => do
      let sa ← a.ToString
      let sb ← b.ToString
      pure (sa ++ "-" ++ sb)
  | .FunctionMultiply a b => do
      let sa ← a.ToString
      let sb ← b.ToString
      pure (sa ++ "*" ++ sb)
  | .FunctionDivide a b => do
      let sa ← a.ToString
      let sb ← b.ToString
      pure (sa ++ "/" ++ sb)

/-! ## Constructors of the primitive classes and the factory -/

/-- The cast `std::any_cast<int>(value)`. -/
def anyCastInt : Any → Except Exception Int
  | .int v => .ok v
  | _ => .error .bad_any_cast

/-- The cast `std::any_cast<std::vector<int>>(value)`. -/
def anyCastVectorInt : Any → Except Exception (List Int)
  | .vectorInt v => .ok v
  | _ => .error .bad_any_cast

/-- Constructor `Const(const std::any& value)`. -/
def newConst (value : Any) : Except Exception Function := do
  let c ← anyCastInt value
  pure (.Const c)

/-- Constructor `Ident(const std::any& value)`: the payload is not read. -/
def newIdent (_value : Any) : Except Exception Function :=
  pure .Ident

/-- Constructor `Power(const std::any& value)`. -/
def newPower (value : Any) : Except Exception Function := do
  let n ← anyCastInt value
  pure (.Power n)

/-- Constructor `Exp(const std::any& value)`. -/
def newExp (value : Any) : Except Exception Function := do
  let k ← anyCastInt value
  pure (.Exp k)

/-- Constructor `Polynomial(const std::any& value)`. -/
def newPolynomial (value : Any) : Except Exception Function := do
  let p ← anyCastVectorInt value
  pure (.Polynomial p)

/-- A registered creator, `TCreator<T>::Create`: the constructor of `T` applied
to the payload. -/
abbrev TCreatorPtr : Type :=
  Any → Except Exception Function

/-- The class `TFactory::TImpl`; the `std::map` is kept as the list of its
assignments, the latest first. -/
structure TImpl where
  RegisteredCreators : List (String × TCreatorPtr)

/-- The member `RegisterCreator<T>(name)`: `RegisteredCreators[name] = …`. -/
def TImpl.RegisterCreator (self : TImpl) (name : String) (creator : TCreatorPtr) : TImpl :=
  ⟨(name, creator) :: self.RegisteredCreators⟩

/-- The member `RegisterAll()`. -/
def TImpl.RegisterAll (self : TImpl) : TImpl :=
  let r1 := self.RegisterCreator "const" newConst
  let r2 := r1.RegisterCreator "ident" newIdent
  let r3 := r2.RegisterCreator "power" newPower
  let r4 := r3.RegisterCreator "exp" newExp
  r4.RegisterCreator "polynomial" newPolynomial

/-- The constructor `TImpl()`. -/
def TImpl.new : TImpl :=
  TImpl.RegisterAll ⟨[]⟩

/-- The member `TImpl::CreateObject(name, value)`: `none` is the null pointer
returned for a name that `find` does not reach. -/
def TImpl.CreateObject (self : TImpl) (name : String) (value : Any) :
    Except Exception (Option Function) :=
  match self.RegisteredCreators.lookup name with
  | none => .ok none
  | some creator => do
      let f ← creator value
      pure (some f)

/-- The class `TFactory`. -/
structure TFactory where
  Impl : TImpl

/-- The constructor `TFactory()`. -/
def TFactory.new : TFactory :=
  ⟨TImpl.new⟩

/-- The member `TFactory::CreateObject(name, value)`. -/
def TFactory.CreateObject (self : TFactory) (name : String) (value : Any) :
    Except Exception (Option Function) :=
  self.Impl.CreateObject name value

/-- The call `CreateObject(name)` with the default payload `nullptr`. -/
def TFactory.CreateObjectDefault (self : TFactory) (name : String) :
    Except Exception (Option Function) :=
  self.CreateObject name .nullptr

/-! ## `double` with the special values of IEEE 754 -/

/-- A `double` with its special values: `zero s` and `inf s` are the zero and
the infinity of sign `s` (`true` for minus), `num v` is the finite number
`v ≠ 0`, `nan` is NaN.  Arithmetic on finite numbers is exact: rounding,
overflow and underflow of `double` are not modelled. -/
inductive Double (K : Type) : Type
  | zero (negative : Bool)
  | num (v : K)
  | inf (negative : Bool)
  | nan
  deriving DecidableEq

/-- The double of the number `v`, with the sign `s` when `v` is zero. -/
def Double.ofSigned {K : Type} [LinearOrderedField K] (s : Bool) (v : K) : Double K :=
  if v = 0 then .zero s else .num v

/-- The double of a number; the number 0 is `+0`. -/
def Double.ofField {K : Type} [LinearOrderedField K] (v : K) : Double K :=
  Double.ofSigned false v

/-- The conversion of an `int` to `double`. -/
def Double.ofInt {K : Type} [LinearOrderedField K] (c : Int) : Double K :=
  Double.ofField (c : K)

/-- The sign bit of a double that is not NaN. -/
def Double.sign {K : Type} [LinearOrderedField K] : Double K → Bool
  | .zero s => s
  | .num v => decide (v < 0)
  | .inf s => s
  | .nan => false

/-- The number a finite double stands for: both zeros stand for 0. -/
def Double.value {K : Type} [LinearOrderedField K] : Double K → Option K
  | .zero _ => some 0
  | .num v => some v
  | .inf _ => none
  | .nan => none

/-- The number of a finite double, 0 for the others. -/
def Double.toField {K : Type} [LinearOrderedField K] : Double K → K
  | .num v => v
  | _ => 0

/-- Unary minus: the sign is flipped. -/
def Double.neg {K : Type} [LinearOrderedField K] : Double K → Double K
  | .zero s => .zero (!s)
  | .num v => .num (-v)
  | .inf s => .inf (!s)
  | .nan => .nan

/-- The sum `a + b`, rounding to nearest: an exact zero sum is `+0` unless
both operands are `-0`; infinities of opposite sign give NaN. -/
def Double.add {K : Type} [LinearOrderedField K] : Double K → Double K → Double K
  | .nan, _ => .nan
  | _, .nan => .nan
  | .inf s, .inf t => if s = t then .inf s else .nan
  | .inf s, _ => .inf s
  | _, .inf t => .inf t
  | .zero s, .zero t => .zero (s && t)
  | .zero _, .num b => .num b
  | .num a, .zero _ => .num a
  | .num a, .num b => Double.ofSigned false (a + b)

/-- The difference `a - b`, which is `a + (-b)`. -/
def Double.sub {K : Type} [LinearOrderedField K] (a b : Double K) : Double K :=
  Double.add a (Double.neg b)

/-- The product `a * b`: the sign is the exclusive or of the signs; zero
times infinity is NaN. -/
def Double.mul {K : Type} [LinearOrderedField K] : Double K → Double K → Double K
  | .nan, _ => .nan
  | _, .nan => .nan
  | .inf _, .zero _ => .nan
  | .zero _, .inf _ => .nan
  | .inf s, b => .inf (xor s b.sign)
  | a, .inf t => .inf (xor a.sign t)
  | .zero s, b => .zero (xor s b.sign)
  | a, .zero t => .zero (xor a.sign t)
  | .num a, .num b => Double.ofSigned (xor (decide (a < 0)) (decide (b < 0))) (a * b)

/-- The quotient `a / b`: the sign is the exclusive or of the signs; `0/0`
and `inf/inf` are NaN, a nonzero number over zero is an infinity. -/
def Double.div {K : Type} [LinearOrderedField K] : Double K → Double K → Double K
  | .nan, _ => .nan
  | _, .nan => .nan
  | .inf _, .inf _ => .nan
  | .zero _, .zero _ => .nan
  | .inf s, b => .inf (xor s b.sign)
  | a, .inf t => .zero (xor a.sign t)
  | a, .zero t => .inf (xor a.sign t)
  | .zero s, b => .zero (xor s b.sign)
  | .num a, .num b => Double.ofSigned (xor (decide (a < 0)) (decide (b < 0))) (a / b)

/-- The call `fabs(a)`: the sign is cleared. -/
def Double.fabs {K : Type} [LinearOrderedField K] : Double K → Double K
  | .zero _ => .zero false
  | .num v => .num |v|
  | .inf _ => .inf false
  | .nan => .nan

/-- The comparison `a > b`: false when an operand is NaN; both zeros are
equal. -/
def Double.gt {K : Type} [LinearOrderedField K] : Double K → Double K → Bool
  | .nan, _ => false
  | _, .nan => false
  | .inf s, .inf t => !s && t
  | .inf s, _ => !s
  | _, .inf t => t
  | a, b => decide (a.toField > b.toField)

/-- The call `pow(x, n)` of `<cmath>` with an `int` exponent, converted to
`double` exactly: 1 for `n = 0` whatever `x`; a zero base with a negative
exponent gives an infinity, negative only for `-0` and `n` odd. -/
def Double.pow {K : Type} [LinearOrderedField K] (x : Double K) (n : Int) : Double K :=
  if n = 0 then .num 1
  else
    match x with
    | .nan => .nan
    | .zero s => if n < 0 then .inf (s && decide (n % 2 = 1)) else .zero (s && decide (n % 2 = 1))
    | .inf s => if n < 0 then .zero (s && decide (n % 2 = 1)) else .inf (s && decide (n % 2 = 1))
    | .num v => Double.ofSigned (decide (v < 0) && decide (n % 2 = 1)) (v ^ n)

/-- The call `exp(x)` of `<cmath>`, given the exponential `E` on numbers:
`exp(+inf)` is `+inf` and `exp(-inf)` is `+0`. -/
def Double.exp {K : Type} [LinearOrderedField K] (E : K → K) : Double K → Double K
  | .zero _ => Double.ofField (E 0)
  | .num v => Double.ofField (E v)
  | .inf s => if s then .zero false else .inf false
  | .nan => .nan

/-! ## The classes and Newton's method on `double` with special values -/

namespace IEEE

/-- The loop of `Polynomial::operator()` on `Double`. -/
def polyCallLoop {K : Type} [LinearOrderedField K] (x : Double K) :
    List Int → Nat → Double K → Double K
  | [], _, polynom => polynom
  | c :: rest, i, polynom =>
      polyCallLoop x rest (i + 1)
        (Double.add polynom (Double.mul (Double.ofInt c) (Double.pow x (i : Int))))

/-- The loop of `Polynomial::GetDeriv` on `Double`; `_poly[i]*i` is an `int`
product. -/
def polyDerivLoop {K : Type} [LinearOrderedField K] (x : Double K) :
    List Int → Nat → Double K → Double K
  | [], _, polynom => polynom
  | c :: rest, i, polynom =>
      polyDerivLoop x rest (i + 1)
        (Double.add polynom
          (Double.mul (Double.ofInt (wrapInt (c * (i : Int)))) (Double.pow x ((i : Int) - 1))))

/-- The virtual `operator()(double x)` on `Double`. -/
def call {K : Type} [LinearOrderedField K] (exp : K → K) : Function → Double K → Double K
  | .Const c, _ => Double.ofInt c
  | .Ident, x => x
  | .Power n, x => Double.pow x n
  | .Exp k, x => Double.exp exp (Double.mul (Double.ofInt k) x)
  | .Polynomial p, x => polyCallLoop x p 0 (Double.zero false)
  | .FunctionPlus a b, x => Double.add (call exp a x) (call exp b x)
  | .FunctionMinus a b, x => Double.sub (call exp a x) (call exp b x)
  | .FunctionMultiply a b, x => Double.mul (call exp a x) (call exp b x)
  | .FunctionDivide a b, x => Double.div (call exp a x) (call exp b x)

/-- The virtual `GetDeriv(double x)` on `Double`. -/
def GetDeriv {K : Type} [LinearOrderedField K] (exp : K → K) : Function → Double K → Double K
  | .Const _, _ => Double.zero false
  | .Ident, _ => Double.num 1
  | .Power n, x => Double.mul (Double.ofInt n) (Double.pow x (wrapInt (n - 1)))
  | .Exp k, x => Double.mul (Double.ofInt k) (Double.exp exp (Double.mul (Double.ofInt k) x))
  | .Polynomial p, x => polyDerivLoop x (p.drop 1) 1 (Double.zero false)
  | .FunctionPlus a b, x => Double.add (GetDeriv exp a x) (GetDeriv exp b x)
  | .FunctionMinus a b, x => Double.sub (GetDeriv exp a x) (GetDeriv exp b x)
  | .FunctionMultiply a b, x =>
      Double.add (Double.mul (GetDeriv exp a x) (call exp b x))
        (Double.mul (call exp a x) (GetDeriv exp b x))
  | .FunctionDivide a b, x =>
      Double.sub (Double.mul (GetDeriv exp a x) (call exp b x))
        (Double.div (Double.mul (call exp a x) (GetDeriv exp b x))
          (Double.pow (call exp a x) 2))

/-- The `do … while` loop of `NewtonMethod` on `Double`, entered with the
current `x0` and `step`; returns both at the exit. -/
def NewtonLoop {K : Type} [LinearOrderedField K] (exp : K → K) (f : Function)
    (iter : Int) (eps : Double K) (x0 : Double K) (step : Int) : Double K × Int :=
  let x1 := Double.sub x0 (Double.div (call exp f x0) (GetDeriv exp f x0))
  let step1 := step + 1
  if _h : Double.gt (Double.fabs (call exp f x1)) eps = true ∧ step1 < iter then
    NewtonLoop exp f iter eps x1 step1
  else
    (x1, step1)
termination_by (iter - step).toNat
decreasing_by omega

/-- The function `NewtonMethod(f, x0, iter, eps)` on `Double`. -/
def NewtonMethod {K : Type} [LinearOrderedField K] (exp : K → K) (f : Function)
    (x0 : Double K) (iter : Int) (eps : Double K) : Double K :=
  (NewtonLoop exp f iter eps x0 0).1

end IEEE

/-! ## Vocabulary of the statements -/

/-- Whether a `std::any` holds a `std::shared_ptr<Function>`. -/
def Any.isFunction : Any → Bool
  | .function _ => true
  | _ => false

/-- The `int` products `_poly[i]*i` of the loop of `Polynomial::GetDeriv`,
entered at index `i` with `rest`, all stay in the `int` range. -/
def polyDerivFits : List Int → Nat → Prop
  | [], _ => True
  | c :: rest, i => isInt (c * (i : Int)) ∧ polyDerivFits rest (i + 1)

/-- The `int` arithmetic that `GetDeriv` performs on the tree stays in the
`int` range: `_power - 1` in `Power`, `_poly[i]*i` in `Polynomial`. -/
def Function.derivInRange : Function → Prop
  | .Const _ => True
  | .Ident => True
  | .Power n => isInt (n - 1)
  | .Exp _ => True
  | .Polynomial p => polyDerivFits (p.drop 1) 1
  | .FunctionPlus a b => a.derivInRange ∧ b.derivInRange
  | .FunctionMinus a b => a.derivInRange ∧ b.derivInRange
  | .FunctionMultiply a b => a.derivInRange ∧ b.derivInRange
  | .FunctionDivide a b => a.derivInRange ∧ b.derivInRange

/-- The trees built only from Constant, Identity, Power with exponent at
least 1, Exponential, Polynomial, Sum, Difference and Product. -/
def Function.quotientFree : Function → Prop
  | .Const _ => True
  | .Ident => True
  | .Power n => 1 ≤ n
  | .Exp _ => True
  | .Polynomial _ => True
  | .FunctionPlus a b => a.quotientFree ∧ b.quotientFree
  | .FunctionMinus a b => a.quotientFree ∧ b.quotientFree
  | .FunctionMultiply a b => a.quotientFree ∧ b.quotientFree
  | .FunctionDivide _ _ => False

/-- The terms after the first of a rendered polynomial, as the specification
writes them: for each `i = 1..n`, in increasing order, `"+"`, the decimal
string of `a_i`, `"x^"` and the decimal string of `i`. -/
def renderTerms (p : List Int) : List String :=
  (List.range (p.length - 1)).map fun j =>
    "+" ++ toString (p.getD (j + 1) 0) ++ "x^" ++ toString (j + 1)

/-- The rendering of a polynomial as the specification writes it: the decimal
string of `a_0` followed by the terms of `renderTerms`. -/
def renderSpec (p : List Int) : String :=
  toString (p.getD 0 0) ++ String.join (renderTerms p)

/-- The coefficient sequence `[1*a1, 2*a2, ..., n*an]` of the derivative, as
the specification writes it, with exact integer products. -/
def derivCoefficients (p : List Int) : List Int :=
  (List.range (p.length - 1)).map fun j => ((j + 1 : Nat) : Int) * p.getD (j + 1) 0

/-- The Newton iterates in `double` arithmetic, as the specification writes
them: `x_0 = x0` and `x_{k+1} = x_k - f(x_k)/f'(x_k)`. -/
def IEEE.newtonIterate {K : Type} [LinearOrderedField K] (exp : K → K) (f : Function)
    (x0 : Double K) : Nat → Double K
  | 0 => x0
  | k + 1 =>
      Double.sub (IEEE.newtonIterate exp f x0 k)
        (Double.div (IEEE.call exp f (IEEE.newtonIterate exp f x0 k))
          (IEEE.GetDeriv exp f (IEEE.newtonIterate exp f x0 k)))

/-- The residual `y = f(x)` does not satisfy `fabs(y) > eps`: `y` is NaN, or
`y` is a number with `|y| ≤ eps`. -/
def residualStops {K : Type} [LinearOrderedField K] (y : Double K) (eps : K) : Prop :=
  y = Double.nan ∨ ∃ v : K, y.value = some v ∧ |v| ≤ eps

/-- The coefficient sequence `[1*a1, 2*a2, ..., n*an]` of the derivative with
the products formed in `int`, as a `std::vector<int>` holds them. -/
def intDerivCoefficients (p : List Int) : List Int :=
  (List.range (p.length - 1)).map fun j => wrapInt (((j + 1 : Nat) : Int) * p.getD (j + 1) 0)

/-- The Newton iterates as the specification writes them, independently of
the loop: `x_0 = x0` and `x_{k+1} = x_k - f(x_k)/f'(x_k)`. -/
def newtonIterate {K : Type} [Field K] (exp : K → K) (f : Function) (x0 : K) : Nat → K
  | 0 => x0
  | k + 1 =>
      newtonIterate exp f x0 k
        - f.call exp (newtonIterate exp f x0 k) / f.GetDeriv exp (newtonIterate exp f x0 k)

/-! ## Auxiliary lemmas -/

theorem wrapInt_of_isInt {n : Int} (h : isInt n) : wrapInt n = n := by
  unfold isInt at h
  unfold wrapInt
  omega

theorem polyCallLoop_eq {K : Type} [Field K] (x : K) (l : List Int) :
    ∀ (i : Nat) (acc : K),
      polyCallLoop x l i acc
        = acc + ∑ j ∈ Finset.range l.length, ((l.getD j 0 : Int) : K) * x ^ (i + j) := by
  induction l with
  | nil => intro i acc; simp [polyCallLoop]
  | cons c rest ih =>
    intro i acc
    rw [polyCallLoop, ih, List.length_cons, Finset.sum_range_succ']
    simp only [pow, zpow_natCast, List.getD_cons_succ, List.getD_cons_zero, add_zero]
    have : ∀ j, x ^ (i + 1 + j) = x ^ (i + (j + 1)) := fun j => by ring_nf
    simp only [this]
    ring

theorem polyDerivLoop_eq {K : Type} [Field K] (x : K) (l : List Int) :
    ∀ (i : Nat) (acc : K), polyDerivFits l (i + 1) →
      polyDerivLoop x l (i + 1) acc
        = acc + ∑ j ∈ Finset.range l.length,
            ((l.getD j 0 : Int) : K) * (((i + j + 1 : Nat) : K) * x ^ (i + j)) := by
  induction l with
  | nil => intro i acc _; simp [polyDerivLoop]
  | cons c rest ih =>
    intro i acc hfit
    obtain ⟨hc, hrest⟩ := hfit
    rw [polyDerivLoop, ih (i + 1) _ hrest, wrapInt_of_isInt hc, List.length_cons,
      Finset.sum_range_succ']
    have hpow : pow x (((i + 1 : Nat) : Int) - 1) = x ^ i := by
      simp [pow]
    simp only [hpow, List.getD_cons_succ, List.getD_cons_zero, add_zero]
    have : ∀ j, i + 1 + j = i + (j + 1) := fun j => by omega
    simp only [this]
    push_cast
    ring

theorem polynomial_call_eq {K : Type} [Field K] (exp : K → K) (p : List Int) (x : K) :
    (Function.Polynomial p).call exp x
      = ∑ i ∈ Finset.range p.length, ((p.getD i 0 : Int) : K) * x ^ i := by
  simp [Function.call, polyCallLoop_eq]

theorem polynomial_GetDeriv_eq {K : Type} [Field K] (exp : K → K) (p : List Int) (x : K)
    (hfit : polyDerivFits (p.drop 1) 1) :
    (Function.Polynomial p).GetDeriv exp x
      = ∑ i ∈ Finset.range (p.length - 1),
          ((p.getD (i + 1) 0 : Int) : K) * (((i + 1 : Nat) : K) * x ^ i) := by
  simp only [Function.GetDeriv]
  rw [polyDerivLoop_eq x (p.drop 1) 0 0 hfit]
  simp [List.getD_eq_getElem?_getD, add_comm]

theorem polynomial_hasDerivAt (p : List Int) (x : ℝ) (hfit : polyDerivFits (p.drop 1) 1) :
    HasDerivAt (fun y => (Function.Polynomial p).call Real.exp y)
      ((Function.Polynomial p).GetDeriv Real.exp x) x := by
  have hfun : (fun y => (Function.Polynomial p).call Real.exp y)
      = fun y => ∑ i ∈ Finset.range p.length, ((p.getD i 0 : Int) : ℝ) * y ^ i := by
    funext y
    exact polynomial_call_eq Real.exp p y
  rw [hfun, polynomial_GetDeriv_eq Real.exp p x hfit]
  have hsum : HasDerivAt (fun y => ∑ i ∈ Finset.range p.length, ((p.getD i 0 : Int) : ℝ) * y ^ i)
      (∑ i ∈ Finset.range p.length, ((p.getD i 0 : Int) : ℝ) * ((i : ℝ) * x ^ (i - 1))) x :=
    HasDerivAt.sum fun i _ => (hasDerivAt_pow i x).const_mul _
  convert hsum using 1
  cases p with
  | nil => simp
  | cons c rest =>
    rw [List.length_cons, Finset.sum_range_succ']
    simp

theorem call_hasDerivAt (t : Function) (x : ℝ) (hq : t.quotientFree) (hr : t.derivInRange) :
    HasDerivAt (fun y => t.call Real.exp y) (t.GetDeriv Real.exp x) x := by
  induction t with
  | Const c => exact hasDerivAt_const x _
  | Ident => exact hasDerivAt_id x
  | Power n =>
    simp only [Function.quotientFree] at hq
    simp only [Function.derivInRange] at hr
    simp only [Function.call, Function.GetDeriv, pow, wrapInt_of_isInt hr]
    exact hasDerivAt_zpow n x (Or.inr (by omega))
  | Exp k =>
    simp only [Function.call, Function.GetDeriv]
    have h := (Real.hasDerivAt_exp ((k : ℝ) * x)).comp x ((hasDerivAt_id x).const_mul (k : ℝ))
    simp only [mul_one] at h
    rw [mul_comm]
    exact h
  | Polynomial p => exact polynomial_hasDerivAt p x hr
  | FunctionPlus a b iha ihb => exact (iha hq.1 hr.1).add (ihb hq.2 hr.2)
  | FunctionMinus a b iha ihb => exact (iha hq.1 hr.1).sub (ihb hq.2 hr.2)
  | FunctionMultiply a b iha ihb => exact (iha hq.1 hr.1).mul (ihb hq.2 hr.2)
  | FunctionDivide a b _ _ => exact absurd hq (by simp [Function.quotientFree])

/-! ## Quotient, product and polynomial rules -/

/-- C1 (the code departs from the claim).  For `a = Polynomial([1,6])`,
`b = Power(4)` and `x = 2`, where `b(2) = 16` is not zero, the quotient rule
`(a'(x)*b(x) - a(x)*b'(x)) / b(x)^2` gives `-5/4`, which is the derivative of
`x ↦ a(x)/b(x)` at 2, while `FunctionDivide::GetDeriv` returns `1216/13`,
which is not. -/
theorem C1_quotient_getDeriv_is_not_quotient_rule :
    (Function.Power 4).call Real.exp (2 : ℝ) ≠ 0 ∧
    ((Function.Polynomial [1, 6]).GetDeriv Real.exp (2 : ℝ) * (Function.Power 4).call Real.exp 2
        - (Function.Polynomial [1, 6]).call Real.exp 2 * (Function.Power 4).GetDeriv Real.exp 2)
      / (Function.Power 4).call Real.exp 2 ^ 2 = -5 / 4 ∧
    (Function.FunctionDivide (.Polynomial [1, 6]) (.Power 4)).GetDeriv Real.exp (2 : ℝ)
      = 1216 / 13 ∧
    HasDerivAt
      (fun y => (Function.FunctionDivide (.Polynomial [1, 6]) (.Power 4)).call Real.exp y)
      (-5 / 4) (2 : ℝ) ∧
    ¬ HasDerivAt
      (fun y => (Function.FunctionDivide (.Polynomial [1, 6]) (.Power 4)).call Real.exp y)
      ((Function.FunctionDivide (.Polynomial [1, 6]) (.Power 4)).GetDeriv Real.exp 2) (2 : ℝ) := by
  have hb : (Function.Power 4).call Real.exp (2 : ℝ) ≠ 0 := by
    norm_num [Function.call, pow]
  have hrule : ((Function.Polynomial [1, 6]).GetDeriv Real.exp (2 : ℝ)
        * (Function.Power 4).call Real.exp 2
        - (Function.Polynomial [1, 6]).call Real.exp 2 * (Function.Power 4).GetDeriv Real.exp 2)
      / (Function.Power 4).call Real.exp 2 ^ 2 = -5 / 4 := by
    simp [Function.call, Function.GetDeriv, polyCallLoop, polyDerivLoop, pow, wrapInt]
    norm_num
  have hcode : (Function.FunctionDivide (.Polynomial [1, 6]) (.Power 4)).GetDeriv Real.exp (2 : ℝ)
      = 1216 / 13 := by
    simp [Function.call, Function.GetDeriv, polyCallLoop, polyDerivLoop, pow, wrapInt]
    norm_num
  have ha' : HasDerivAt (fun y => (Function.Polynomial [1, 6]).call Real.exp y)
      ((Function.Polynomial [1, 6]).GetDeriv Real.exp 2) (2 : ℝ) :=
    call_hasDerivAt _ _ (by simp [Function.quotientFree])
      (by simp [Function.derivInRange, polyDerivFits, isInt])
  have hb' : HasDerivAt (fun y => (Function.Power 4).call Real.exp y)
      ((Function.Power 4).GetDeriv Real.exp 2) (2 : ℝ) :=
    call_hasDerivAt _ _ (by simp [Function.quotientFree])
      (by simp [Function.derivInRange, isInt])
  have hdiv : HasDerivAt
      (fun y => (Function.FunctionDivide (.Polynomial [1, 6]) (.Power 4)).call Real.exp y)
      (-5 / 4) (2 : ℝ) := by
    have h := ha'.div hb' hb
    rw [hrule] at h
    exact h
  refine ⟨hb, hrule, hcode, hdiv, ?_⟩
  intro h
  have := h.unique hdiv
  rw [hcode] at this
  norm_num at this

/-- C2 (the code departs from the claim).  `Polynomial([0, 0, 1073741824])`
is a tree of the claim's kind, with `int` coefficients; its value is
`1073741824 * x^2`, whose derivative at 1 is `2147483648`, while `GetDeriv`
returns `-2147483648` there, which is not the derivative. -/
theorem C2_getDeriv_is_not_derivative_on_int_overflow :
    (Function.Polynomial [0, 0, 1073741824]).quotientFree ∧
    (∀ c ∈ ([0, 0, 1073741824] : List Int), isInt c) ∧
    (Function.Polynomial [0, 0, 1073741824]).GetDeriv Real.exp (1 : ℝ) = -2147483648 ∧
    HasDerivAt (fun y => (Function.Polynomial [0, 0, 1073741824]).call Real.exp y)
      2147483648 (1 : ℝ) ∧
    ¬ HasDerivAt (fun y => (Function.Polynomial [0, 0, 1073741824]).call Real.exp y)
      ((Function.Polynomial [0, 0, 1073741824]).GetDeriv Real.exp 1) (1 : ℝ) := by
  have hcode : (Function.Polynomial [0, 0, 1073741824]).GetDeriv Real.exp (1 : ℝ)
      = -2147483648 := by
    simp [Function.GetDeriv, polyDerivLoop, pow, wrapInt]
  have hfun : (fun y : ℝ => (Function.Polynomial [0, 0, 1073741824]).call Real.exp y)
      = fun y => 1073741824 * y ^ 2 := by
    funext y
    simp [Function.call, polyCallLoop, pow]
    norm_cast
  have hder : HasDerivAt (fun y => (Function.Polynomial [0, 0, 1073741824]).call Real.exp y)
      2147483648 (1 : ℝ) := by
    rw [hfun]
    have h := (hasDerivAt_pow 2 (1 : ℝ)).const_mul (1073741824 : ℝ)
    norm_num at h
    exact h
  refine ⟨by simp [Function.quotientFree], by simp [isInt], hcode, hder, ?_⟩
  intro h
  have := h.unique hder
  rw [hcode] at this
  norm_num at this

/-- C3.  For every pair of functions `a`, `b` and every `x`, `Product(a, b)`
evaluates to `a(x)*b(x)` and its `GetDeriv` is `a'(x)*b(x) + a(x)*b'(x)`; for
`a = Polynomial([1,6])` and `b = Power(4)` the derivative of `a*b` at 1 is 34. -/
theorem C3_product_rule :
    (∀ (K : Type) [Field K] (exp : K → K) (a b : Function) (x : K),
      (Function.FunctionMultiply a b).call exp x = a.call exp x * b.call exp x ∧
      (Function.FunctionMultiply a b).GetDeriv exp x
        = a.GetDeriv exp x * b.call exp x + a.call exp x * b.GetDeriv exp x) ∧
    (Function.FunctionMultiply (.Polynomial [1, 6]) (.Power 4)).GetDeriv Real.exp (1 : ℝ) = 34 := by
  refine ⟨fun K _ exp a b x => ⟨rfl, rfl⟩, ?_⟩
  simp [Function.call, Function.GetDeriv, polyCallLoop, polyDerivLoop, pow, wrapInt]
  norm_num

/-- C8.  For every coefficient sequence and every `x`, `Polynomial::operator()`
returns the sum of `a_i * x^i` over the indices of the sequence; at `x = 0`
this is `a_0` (`x^0` counts as 1); and `Polynomial([1,2])` evaluates to 11
at 5. -/
theorem C8_polynomial_call :
    (∀ (K : Type) [Field K] (exp : K → K) (p : List Int) (x : K),
      (Function.Polynomial p).call exp x
        = ∑ i ∈ Finset.range p.length, ((p.getD i 0 : Int) : K) * x ^ i) ∧
    (∀ (K : Type) [Field K] (exp : K → K) (p : List Int),
      (Function.Polynomial p).call exp 0 = ((p.getD 0 0 : Int) : K)) ∧
    (Function.Polynomial [1, 2]).call Real.exp (5 : ℝ) = 11 := by
  refine ⟨fun K _ exp p x => polynomial_call_eq exp p x, ?_, ?_⟩
  · intro K _ exp p
    cases p with
    | nil => simp [Function.call, polyCallLoop]
    | cons c rest =>
      simp only [polynomial_call_eq, List.length_cons, Finset.sum_range_succ', zero_add]
      simp
  · simp [Function.call, polyCallLoop, pow]
    norm_num

/-- C9 (the code departs from the claim).  For the coefficients
`[0, 0, 1073741824]` and `x = 1` the sum of `i * a_i * x^(i-1)` over
`i = 1..2` is `2147483648`, while `Polynomial::GetDeriv` returns
`-2147483648`: the `int` product `_poly[2]*2` leaves the `int` range. -/
theorem C9_polynomial_getDeriv_int_overflow :
    (∀ c ∈ ([0, 0, 1073741824] : List Int), isInt c) ∧
    (∑ i ∈ Finset.Icc (1 : ℕ) 2,
        ((i : ℕ) : ℝ) * ((([0, 0, 1073741824] : List Int).getD i 0 : Int) : ℝ) * (1 : ℝ) ^ (i - 1))
      = 2147483648 ∧
    (Function.Polynomial [0, 0, 1073741824]).GetDeriv Real.exp (1 : ℝ) = -2147483648 := by
  refine ⟨by simp [isInt], ?_, ?_⟩
  · have : Finset.Icc (1 : ℕ) 2 = ({1, 2} : Finset ℕ) := by decide
    rw [this]
    simp
    norm_num
  · simp [Function.GetDeriv, polyDerivLoop, pow, wrapInt]

/-- C10.  For `a = Polynomial([1,6])` and `b = Power(4)` the operator `a / b`
returns a function whose `GetDeriv` at 2 is `96 - 416/169`, within 0.01 of
93.53. -/
theorem C10_divide_getDeriv_reference_value :
    ∃ q : Function,
      operatorDivide (.function (.Polynomial [1, 6])) (.function (.Power 4)) = .ok q ∧
      q.GetDeriv Real.exp (2 : ℝ) = 96 - 416 / 169 ∧
      |q.GetDeriv Real.exp (2 : ℝ) - 93.53| ≤ 0.01 := by
  refine ⟨.FunctionDivide (.Polynomial [1, 6]) (.Power 4), rfl, ?_⟩
  have hcode : (Function.FunctionDivide (.Polynomial [1, 6]) (.Power 4)).GetDeriv Real.exp (2 : ℝ)
      = 96 - 416 / 169 := by
    simp [Function.call, Function.GetDeriv, polyCallLoop, polyDerivLoop, pow, wrapInt]
    norm_num
  refine ⟨hcode, ?_⟩
  rw [hcode, abs_le]
  constructor <;> norm_num

/-! ## Newton's method -/

theorem NewtonLoop_continue {K : Type} [LinearOrderedField K] (exp : K → K) (f : Function)
    (iter : Int) (eps : K) (x0 x1 : K) (step : Int)
    (hx : x0 - f.call exp x0 / f.GetDeriv exp x0 = x1)
    (hc : abs (f.call exp x1) > eps) (hs : step + 1 < iter) :
    NewtonLoop exp f iter eps x0 step = NewtonLoop exp f iter eps x1 (step + 1) := by
  rw [NewtonLoop]
  simp only [hx]
  rw [dif_pos ⟨hc, hs⟩]

theorem NewtonLoop_stop {K : Type} [LinearOrderedField K] (exp : K → K) (f : Function)
    (iter : Int) (eps : K) (x0 x1 : K) (step : Int)
    (hx : x0 - f.call exp x0 / f.GetDeriv exp x0 = x1)
    (hc : ¬ (abs (f.call exp x1) > eps ∧ step + 1 < iter)) :
    NewtonLoop exp f iter eps x0 step = (x1, step + 1) := by
  rw [NewtonLoop]
  simp only [hx]
  rw [dif_neg hc]

theorem newtonIterate_succ_left {K : Type} [Field K] (exp : K → K) (f : Function) (x : K)
    (k : Nat) :
    newtonIterate exp f x (k + 1)
      = newtonIterate exp f (x - f.call exp x / f.GetDeriv exp x) k := by
  induction k with
  | zero => rfl
  | succ k ih =>
    rw [newtonIterate, ih]
    rfl

theorem NewtonLoop_spec {K : Type} [LinearOrderedField K] (exp : K → K) (f : Function)
    (iter : Int) (eps : K) :
    ∀ (n : Nat) (x : K) (step : Int), (iter - step).toNat = n →
      ∃ m : Nat, 1 ≤ m ∧
        NewtonLoop exp f iter eps x step = (newtonIterate exp f x m, step + (m : Int)) ∧
        (abs (f.call exp (newtonIterate exp f x m)) ≤ eps ∨ iter ≤ step + (m : Int)) ∧
        ∀ j : Nat, 1 ≤ j → j < m →
          ¬ (abs (f.call exp (newtonIterate exp f x j)) ≤ eps ∨ iter ≤ step + (j : Int)) := by
  intro n
  induction n using Nat.strong_induction_on with
  | _ n ih =>
    intro x step hn
    by_cases hc : abs (f.call exp (x - f.call exp x / f.GetDeriv exp x)) > eps ∧ step + 1 < iter
    · obtain ⟨m, hm1, hrun, hstop, hmin⟩ :=
        ih (iter - (step + 1)).toNat (by omega) (x - f.call exp x / f.GetDeriv exp x)
          (step + 1) rfl
      refine ⟨m + 1, by omega, ?_, ?_, ?_⟩
      · rw [NewtonLoop_continue exp f iter eps x _ step rfl hc.1 hc.2, hrun,
          newtonIterate_succ_left]
        congr 1
        push_cast
        ring
      · rw [newtonIterate_succ_left]
        rcases hstop with h | h
        · exact Or.inl h
        · right
          push_cast
          omega
      · intro j hj1 hjm
        obtain ⟨i, rfl⟩ : ∃ i, j = i + 1 := ⟨j - 1, by omega⟩
        rw [newtonIterate_succ_left]
        rcases Nat.eq_zero_or_pos i with hi | hi
        · subst hi
          simp only [newtonIterate]
          rintro (h | h)
          · exact absurd hc.1 (not_lt.mpr h)
          · push_cast at h
            omega
        · have := hmin i hi (by omega)
          rintro (h | h)
          · exact this (Or.inl h)
          · apply this
            right
            push_cast at h
            omega
    · refine ⟨1, le_refl 1, ?_, ?_, ?_⟩
      · rw [NewtonLoop_stop exp f iter eps x _ step rfl hc]
        rfl
      · simp only [newtonIterate]
        by_cases h : abs (f.call exp (x - f.call exp x / f.GetDeriv exp x)) ≤ eps
        · exact Or.inl h
        · right
          have h1 : ¬ (step + 1 < iter) := fun hs => hc ⟨not_le.mp h, hs⟩
          push_cast
          omega
      · intro j hj1 hj2
        omega

/-- C5.  With `iter ≤ 1` the result of `NewtonMethod` is `x0 - f(x0)/f'(x0)`
for every `f`, `x0` and `eps`, also when `|f(x0)| ≤ eps` already: one update
is always made. -/
theorem C5_newton_one_update (K : Type) [LinearOrderedField K] (exp : K → K) (f : Function)
    (x0 : K) (iter : Int) (eps : K) (hiter : iter ≤ 1) :
    NewtonMethod exp f x0 iter eps = x0 - f.call exp x0 / f.GetDeriv exp x0 := by
  rw [NewtonMethod, NewtonLoop_stop exp f iter eps x0 _ 0 rfl (fun h => by omega)]

/-- Witness of C5: `f(x) = x`, `x0 = 1/100000`, `eps = 1/10000` (so that
`|f(x0)| ≤ eps` on entry) and `iter = 1`. -/
theorem C5_newton_one_update_witness :
    abs ((Function.Ident).call Real.exp (1 / 100000 : ℝ)) ≤ 1 / 10000 ∧
    NewtonMethod Real.exp .Ident (1 / 100000 : ℝ) 1 (1 / 10000)
      = 1 / 100000 - (Function.Ident).call Real.exp (1 / 100000 : ℝ)
          / (Function.Ident).GetDeriv Real.exp (1 / 100000 : ℝ) :=
  ⟨by rw [Function.call, abs_le]; constructor <;> norm_num,
   C5_newton_one_update ℝ Real.exp .Ident (1 / 100000) 1 (1 / 10000) (by decide)⟩

theorem newtonTest_call (y : ℝ) :
    (Function.Polynomial [-5, 2, 3]).call Real.exp y = 3 * y ^ 2 + 2 * y - 5 := by
  have h2 : y ^ (2 : ℤ) = y ^ 2 := zpow_ofNat y 2
  simp [Function.call, polyCallLoop, pow, h2]
  ring

theorem newtonTest_GetDeriv (y : ℝ) :
    (Function.Polynomial [-5, 2, 3]).GetDeriv Real.exp y = 6 * y + 2 := by
  simp [Function.GetDeriv, polyDerivLoop, pow, wrapInt]
  ring

theorem newtonTest_run_left :
    NewtonLoop Real.exp (.Polynomial [-5, 2, 3]) 100 (0.0001 : ℝ) (-7) 0
      = (-3088371276387031 / 1853015893884545, 5) := by
  rw [NewtonLoop_continue Real.exp _ 100 _ (-7) (-19 / 5) 0
        (by rw [newtonTest_call, newtonTest_GetDeriv]; norm_num)
        (by rw [newtonTest_call]; exact lt_abs.mpr (Or.inl (by norm_num))) (by decide),
      NewtonLoop_continue Real.exp _ 100 _ (-19 / 5) (-151 / 65) _
        (by rw [newtonTest_call, newtonTest_GetDeriv]; norm_num)
        (by rw [newtonTest_call]; exact lt_abs.mpr (Or.inl (by norm_num))) (by decide),
      NewtonLoop_continue Real.exp _ 100 _ (-151 / 65) (-11191 / 6305) _
        (by rw [newtonTest_call, newtonTest_GetDeriv]; norm_num)
        (by rw [newtonTest_call]; exact lt_abs.mpr (Or.inl (by norm_num))) (by decide),
      NewtonLoop_continue Real.exp _ 100 _ (-11191 / 6305) (-71810071 / 42981185) _
        (by rw [newtonTest_call, newtonTest_GetDeriv]; norm_num)
        (by rw [newtonTest_call]; exact lt_abs.mpr (Or.inl (by norm_num))) (by decide),
      NewtonLoop_stop Real.exp _ 100 _ (-71810071 / 42981185)
        (-3088371276387031 / 1853015893884545) _
        (by rw [newtonTest_call, newtonTest_GetDeriv]; norm_num)
        (by
          rw [newtonTest_call]
          intro h
          exact absurd h.1 (not_lt.mpr (abs_le.mpr ⟨by norm_num, by norm_num⟩)))]
  rfl

theorem newtonTest_run_right :
    NewtonLoop Real.exp (.Polynomial [-5, 2, 3]) 100 (0.0001 : ℝ) 5 0
      = (2910383431719243038795 / 2910382814045846754848, 5) := by
  rw [NewtonLoop_continue Real.exp _ 100 _ 5 (5 / 2) 0
        (by rw [newtonTest_call, newtonTest_GetDeriv]; norm_num)
        (by rw [newtonTest_call]; exact lt_abs.mpr (Or.inl (by norm_num))) (by decide),
      NewtonLoop_continue Real.exp _ 100 _ (5 / 2) (95 / 68) _
        (by rw [newtonTest_call, newtonTest_GetDeriv]; norm_num)
        (by rw [newtonTest_call]; exact lt_abs.mpr (Or.inl (by norm_num))) (by decide),
      NewtonLoop_continue Real.exp _ 100 _ (95 / 68) (50195 / 48008) _
        (by rw [newtonTest_call, newtonTest_GetDeriv]; norm_num)
        (by rw [newtonTest_call]; exact lt_abs.mpr (Or.inl (by norm_num))) (by decide),
      NewtonLoop_continue Real.exp _ 100 _ (50195 / 48008) (19082454395 / 19068105488) _
        (by rw [newtonTest_call, newtonTest_GetDeriv]; norm_num)
        (by rw [newtonTest_call]; exact lt_abs.mpr (Or.inl (by norm_num))) (by decide),
      NewtonLoop_stop Real.exp _ 100 _ (19082454395 / 19068105488)
        (2910383431719243038795 / 2910382814045846754848) _
        (by rw [newtonTest_call, newtonTest_GetDeriv]; norm_num)
        (by
          rw [newtonTest_call]
          intro h
          exact absurd h.1 (not_lt.mpr (abs_le.mpr ⟨by norm_num, by norm_num⟩)))]
  rfl

/-- C6.  For `f = Polynomial([-5,2,3])`, `iter = 100` and `eps = 0.0001`, in
exact arithmetic: from `x0 = -7` the loop makes 5 updates, stops with
`|f(x)| ≤ eps`, and `NewtonMethod` returns a value within 0.0001 of `-5/3` and
within 0.01 of `-1.66`; from `x0 = 5` it makes 5 updates, stops with
`|f(x)| ≤ eps`, and returns a value within 0.000001 of 1. -/
theorem C6_newton_polynomial_roots :
    ((NewtonLoop Real.exp (.Polynomial [-5, 2, 3]) 100 (0.0001 : ℝ) (-7) 0).2 = 5 ∧
      |(Function.Polynomial [-5, 2, 3]).call Real.exp
          (NewtonMethod Real.exp (.Polynomial [-5, 2, 3]) (-7 : ℝ) 100 0.0001)| ≤ 0.0001 ∧
      |NewtonMethod Real.exp (.Polynomial [-5, 2, 3]) (-7 : ℝ) 100 0.0001 - (-5 / 3)|
        ≤ 0.0001 ∧
      |NewtonMethod Real.exp (.Polynomial [-5, 2, 3]) (-7 : ℝ) 100 0.0001 - (-1.66)|
        ≤ 0.01) ∧
    ((NewtonLoop Real.exp (.Polynomial [-5, 2, 3]) 100 (0.0001 : ℝ) 5 0).2 = 5 ∧
      |(Function.Polynomial [-5, 2, 3]).call Real.exp
          (NewtonMethod Real.exp (.Polynomial [-5, 2, 3]) (5 : ℝ) 100 0.0001)| ≤ 0.0001 ∧
      |NewtonMethod Real.exp (.Polynomial [-5, 2, 3]) (5 : ℝ) 100 0.0001 - 1|
        ≤ 0.000001) := by
  simp only [NewtonMethod, newtonTest_run_left, newtonTest_run_right, newtonTest_call]
  refine ⟨⟨trivial, ?_, ?_, ?_⟩, ⟨trivial, ?_, ?_⟩⟩ <;>
    exact abs_le.mpr ⟨by norm_num, by norm_num⟩

/-! ## Combination operators -/

theorem checkOperands_function (f g : Function) :
    checkOperands (.function f) (.function g) = .ok () := rfl

theorem checkOperands_left (a b : Any) (ha : a.isFunction = false) :
    checkOperands a b = .error .logic_error := by
  cases a <;> first | rfl | simp [Any.isFunction] at ha

theorem checkOperands_right (a b : Any) (hb : b.isFunction = false) :
    checkOperands a b = .error .logic_error := by
  cases b <;> cases a <;> first | rfl | simp [Any.isFunction] at hb

/-- C7.  Each of the operators `+`, `-`, `*`, `/` on two `std::any` operands
fails if and only if at least one operand does not hold a Function handle, and
then with `std::logic_error`; on two Function handles it returns the composite
(Sum, Difference, Product, Quotient) with the left and right operand as its
sub-functions in that order.  `f + "23"` and `"33" + f` fail for
`f = Exponential(4)`. -/
theorem C7_operators_type_mismatch :
    (∀ a b : Any,
      ((∃ e, operatorPlus a b = .error e) ↔ (a.isFunction = false ∨ b.isFunction = false)) ∧
      ((∃ e, operatorMinus a b = .error e) ↔ (a.isFunction = false ∨ b.isFunction = false)) ∧
      ((∃ e, operatorMultiply a b = .error e)
        ↔ (a.isFunction = false ∨ b.isFunction = false)) ∧
      ((∃ e, operatorDivide a b = .error e)
        ↔ (a.isFunction = false ∨ b.isFunction = false))) ∧
    (∀ (a b : Any) (e : Exception),
      (operatorPlus a b = .error e → e = .logic_error) ∧
      (operatorMinus a b = .error e → e = .logic_error) ∧
      (operatorMultiply a b = .error e → e = .logic_error) ∧
      (operatorDivide a b = .error e → e = .logic_error)) ∧
    (∀ f g : Function,
      operatorPlus (.function f) (.function g) = .ok (.FunctionPlus f g) ∧
      operatorMinus (.function f) (.function g) = .ok (.FunctionMinus f g) ∧
      operatorMultiply (.function f) (.function g) = .ok (.FunctionMultiply f g) ∧
      operatorDivide (.function f) (.function g) = .ok (.FunctionDivide f g)) ∧
    operatorPlus (.function (.Exp 4)) (.cstr "23") = .error .logic_error ∧
    operatorPlus (.cstr "33") (.function (.Exp 4)) = .error .logic_error := by
  have key : ∀ a b : Any,
      (a.isFunction = false ∨ b.isFunction = false) →
        operatorPlus a b = .error .logic_error ∧ operatorMinus a b = .error .logic_error ∧
        operatorMultiply a b = .error .logic_error ∧
        operatorDivide a b = .error .logic_error := by
    intro a b h
    have hchk : checkOperands a b = .error .logic_error := by
      rcases h with h | h
      · exact checkOperands_left a b h
      · exact checkOperands_right a b h
    simp only [operatorPlus, operatorMinus, operatorMultiply, operatorDivide, hchk]
    exact ⟨rfl, rfl, rfl, rfl⟩
  have both : ∀ a b : Any, ¬ (a.isFunction = false ∨ b.isFunction = false) →
      ∃ f g, a = .function f ∧ b = .function g := by
    intro a b h
    cases a <;> cases b <;> simp [Any.isFunction] at h ⊢
  refine ⟨?_, ?_, fun f g => ⟨rfl, rfl, rfl, rfl⟩, rfl, rfl⟩
  · intro a b
    by_cases h : a.isFunction = false ∨ b.isFunction = false
    · obtain ⟨h1, h2, h3, h4⟩ := key a b h
      simp only [h1, h2, h3, h4, h, iff_true]
      exact ⟨⟨_, rfl⟩, ⟨_, rfl⟩, ⟨_, rfl⟩, ⟨_, rfl⟩⟩
    · obtain ⟨f, g, rfl, rfl⟩ := both a b h
      simp only [h, iff_false]
      refine ⟨?_, ?_, ?_, ?_⟩ <;> rintro ⟨e, he⟩ <;> cases he
  · intro a b e
    by_cases h : a.isFunction = false ∨ b.isFunction = false
    · obtain ⟨h1, h2, h3, h4⟩ := key a b h
      rw [h1, h2, h3, h4]
      refine ⟨?_, ?_, ?_, ?_⟩ <;> intro he <;> cases he <;> rfl
    · obtain ⟨f, g, rfl, rfl⟩ := both a b h
      refine ⟨?_, ?_, ?_, ?_⟩ <;> intro he <;> cases he

/-! ## Rendering -/

theorem foldl_append_eq (l : List String) :
    ∀ acc : String, l.foldl (fun r s => r ++ s) acc = acc ++ l.foldl (fun r s => r ++ s) "" := by
  induction l with
  | nil => intro acc; simp
  | cons a rest ih =>
    intro acc
    simp only [List.foldl_cons, String.empty_append]
    rw [ih (acc ++ a), ih a, String.append_assoc]

theorem join_cons (a : String) (l : List String) :
    String.join (a :: l) = a ++ String.join l := by
  simp only [String.join, List.foldl_cons, String.empty_append]
  exact foldl_append_eq l a

theorem to_string_natCast (i : Nat) : to_string (i : Int) = toString i := rfl

theorem polyToStringLoop_eq (l : List Int) :
    ∀ (i : Nat) (acc : String),
      polyToStringLoop l i acc
        = acc ++ String.join ((List.range l.length).map fun j =>
            "+" ++ toString (l.getD j 0) ++ "x^" ++ toString (i + j)) := by
  induction l with
  | nil => intro i acc; simp [polyToStringLoop, String.join]
  | cons c rest ih =>
    intro i acc
    rw [polyToStringLoop, ih, List.length_cons, List.range_succ_eq_map, List.map_cons,
      join_cons, List.map_map, String.append_assoc, to_string_natCast]
    simp only [to_string, List.getD_cons_zero, add_zero]
    congr 2
    apply congrArg
    apply List.map_congr_left
    intro j _
    simp only [Function.comp, List.getD_cons_succ]
    rw [show i + 1 + j = i + (j + 1) by omega]

theorem polynomial_ToString_eq (c : Int) (rest : List Int) :
    (Function.Polynomial (c :: rest)).ToString = some (renderSpec (c :: rest)) := by
  simp only [Function.ToString, polyToStringLoop_eq, renderSpec, renderTerms, to_string,
    List.getD_cons_zero, List.length_cons, Nat.add_sub_cancel, List.getD_cons_succ]
  simp only [Nat.add_comm 1]

/-- C11 (counterexample).  Constructing a Polynomial from the empty sequence,
directly and through the factory name "polynomial", yields a Polynomial object
with no coefficient, and on it the read of coefficient index 0 by `ToString`
is out of bounds. -/
theorem C11_empty_polynomial_is_constructed :
    newPolynomial (.vectorInt []) = .ok (.Polynomial []) ∧
    TFactory.new.CreateObject "polynomial" (.vectorInt []) = .ok (some (.Polynomial [])) ∧
    (Function.Polynomial []).ToString = none :=
  ⟨rfl, rfl, rfl⟩

/-- C11 (amended).  Constructing a Polynomial from a coefficient sequence,
directly or through the factory name "polynomial", yields the Polynomial that
holds exactly that sequence, also when the sequence is empty; for every
Polynomial built from a sequence with at least one coefficient the read of
coefficient index 0 by `ToString` is in bounds. -/
theorem C11_polynomial_construction (p : List Int) :
    newPolynomial (.vectorInt p) = .ok (.Polynomial p) ∧
    TFactory.new.CreateObject "polynomial" (.vectorInt p) = .ok (some (.Polynomial p)) ∧
    (p ≠ [] → ∃ s, (Function.Polynomial p).ToString = some s) := by
  refine ⟨rfl, rfl, ?_⟩
  intro hp
  cases p with
  | nil => exact absurd rfl hp
  | cons c rest => exact ⟨_, polynomial_ToString_eq c rest⟩

/-- C12.  For every non-empty coefficient sequence `[a0..an]`, `ToString`
returns the decimal string of `a0` followed, for `i = 1..n` in increasing
order, by `"+"`, the decimal string of `a_i`, `"x^"` and the decimal string of
`i`: `n` terms after the first, whatever the coefficients (a zero coefficient
is emitted, a negative one keeps its minus sign after the `"+"`).  E.g.
`[1,6,-2]` renders as `"1+6x^1+-2x^2"` and `[4,0,0]` as `"4+0x^1+0x^2"`. -/
theorem C12_polynomial_render :
    (∀ (a0 : Int) (rest : List Int),
      (Function.Polynomial (a0 :: rest)).ToString = some (renderSpec (a0 :: rest)) ∧
      (renderTerms (a0 :: rest)).length = rest.length ∧
      ∀ i : Nat, (h : i < rest.length) →
        (renderTerms (a0 :: rest))[i]?
          = some ("+" ++ toString (rest.get ⟨i, h⟩) ++ "x^" ++ toString (i + 1))) ∧
    (Function.Polynomial [1, 6, -2]).ToString = some "1+6x^1+-2x^2" ∧
    (Function.Polynomial [4, 0, 0]).ToString = some "4+0x^1+0x^2" := by
  refine ⟨fun a0 rest => ⟨polynomial_ToString_eq a0 rest, by simp [renderTerms], ?_⟩,
    by decide, by decide⟩
  intro i h
  simp [renderTerms, h, List.getD_eq_getElem?_getD, List.getElem?_eq_getElem h]

/-- C19.  `ToString` of a composite inserts no parentheses and does not
determine the function: `Product(Sum(Identity, Identity), Identity)` and
`Sum(Identity, Product(Identity, Identity))` both render as `"x+x*x"`, and
evaluate to 8 and 6 at `x = 2`. -/
theorem C19_render_is_ambiguous :
    (∀ a b : Function, ∀ sa sb : String, a.ToString = some sa → b.ToString = some sb →
      (Function.FunctionPlus a b).ToString = some (sa ++ "+" ++ sb) ∧
      (Function.FunctionMinus a b).ToString = some (sa ++ "-" ++ sb) ∧
      (Function.FunctionMultiply a b).ToString = some (sa ++ "*" ++ sb) ∧
      (Function.FunctionDivide a b).ToString = some (sa ++ "/" ++ sb)) ∧
    (Function.FunctionMultiply (.FunctionPlus .Ident .Ident) .Ident).ToString = some "x+x*x" ∧
    (Function.FunctionPlus .Ident (.FunctionMultiply .Ident .Ident)).ToString = some "x+x*x" ∧
    (Function.FunctionMultiply (.FunctionPlus .Ident .Ident) .Ident).call Real.exp (2 : ℝ) = 8 ∧
    (Function.FunctionPlus .Ident (.FunctionMultiply .Ident .Ident)).call Real.exp (2 : ℝ) = 6 := by
  refine ⟨?_, by decide, by decide, ?_, ?_⟩
  · intro a b sa sb ha hb
    simp only [Function.ToString, ha, hb]
    exact ⟨rfl, rfl, rfl, rfl⟩
  · simp only [Function.call]
    norm_num
  · simp only [Function.call]
    norm_num

/-! ## Construction -/

theorem registered_lookup (name : String) :
    TFactory.new.Impl.RegisteredCreators.lookup name
      = if name = "polynomial" then some newPolynomial
        else if name = "exp" then some newExp
        else if name = "power" then some newPower
        else if name = "ident" then some newIdent
        else if name = "const" then some newConst
        else none := by
  simp only [TFactory.new, TImpl.new, TImpl.RegisterAll, TImpl.RegisterCreator, List.lookup]
  repeat' split
  all_goals simp_all

theorem createObject_registered (name : String) (creator : TCreatorPtr) (value : Any)
    (h : TFactory.new.Impl.RegisteredCreators.lookup name = some creator) :
    TFactory.new.CreateObject name value
      = match creator value with
        | .ok f => .ok (some f)
        | .error e => .error e := by
  simp only [TFactory.CreateObject, TImpl.CreateObject, h]
  cases creator value <;> rfl

theorem createObject_unregistered (name : String) (value : Any)
    (h : TFactory.new.Impl.RegisteredCreators.lookup name = none) :
    TFactory.new.CreateObject name value = .ok none := by
  simp only [TFactory.CreateObject, TImpl.CreateObject, h]

/-- C13.  `CreateObject(name, payload)` returns the null result, without an
error and whatever the payload, if and only if `name` is none of "const",
"ident", "power", "exp", "polynomial"; for each of these names and a payload
of its shape it returns the variant of that name built from the payload. -/
theorem C13_factory_lookup :
    (∀ (name : String) (value : Any),
      TFactory.new.CreateObject name value = .ok none
        ↔ name ∉ ["const", "ident", "power", "exp", "polynomial"]) ∧
    (∀ c : Int, TFactory.new.CreateObject "const" (.int c) = .ok (some (.Const c))) ∧
    (∀ value : Any, TFactory.new.CreateObject "ident" value = .ok (some .Ident)) ∧
    (∀ n : Int, TFactory.new.CreateObject "power" (.int n) = .ok (some (.Power n))) ∧
    (∀ k : Int, TFactory.new.CreateObject "exp" (.int k) = .ok (some (.Exp k))) ∧
    (∀ p : List Int,
      TFactory.new.CreateObject "polynomial" (.vectorInt p) = .ok (some (.Polynomial p))) := by
  refine ⟨?_, fun _ => rfl, fun _ => rfl, fun _ => rfl, fun _ => rfl, fun _ => rfl⟩
  intro name value
  have hreg : ∀ creator : TCreatorPtr,
      TFactory.new.Impl.RegisteredCreators.lookup name = some creator →
        TFactory.new.CreateObject name value ≠ .ok none := by
    intro creator h
    rw [createObject_registered name creator value h]
    cases creator value <;> simp
  have hl := registered_lookup name
  constructor
  · intro hnone
    simp only [List.mem_cons, List.mem_singleton, List.not_mem_nil, or_false, not_or]
    split_ifs at hl with h1 h2 h3 h4 h5
    · exact absurd hnone (hreg _ hl)
    · exact absurd hnone (hreg _ hl)
    · exact absurd hnone (hreg _ hl)
    · exact absurd hnone (hreg _ hl)
    · exact absurd hnone (hreg _ hl)
    · exact ⟨h5, h4, h3, h2, h1⟩
  · intro hname
    simp only [List.mem_cons, List.mem_singleton, List.not_mem_nil, or_false, not_or] at hname
    obtain ⟨h5, h4, h3, h2, h1⟩ := hname
    rw [if_neg h1, if_neg h2, if_neg h3, if_neg h4, if_neg h5] at hl
    exact createObject_unregistered name value hl

/-- C14.  The constructors of Constant, Power and Exponential succeed exactly
on an integer payload and the constructor of Polynomial exactly on a sequence
of integers; on every other payload, the default `nullptr` included, they fail
with `bad_any_cast` and yield no object, directly and through the factory.
The constructor of Identity succeeds on every payload. -/
theorem C14_payload_shape :
    (∀ value : Any,
      (newConst value = .error .bad_any_cast ↔ ¬ ∃ c, value = .int c) ∧
      (newPower value = .error .bad_any_cast ↔ ¬ ∃ n, value = .int n) ∧
      (newExp value = .error .bad_any_cast ↔ ¬ ∃ k, value = .int k) ∧
      (newPolynomial value = .error .bad_any_cast ↔ ¬ ∃ p, value = .vectorInt p) ∧
      newIdent value = .ok .Ident) ∧
    (∀ c : Int, newConst (.int c) = .ok (.Const c) ∧ newPower (.int c) = .ok (.Power c) ∧
      newExp (.int c) = .ok (.Exp c)) ∧
    (∀ p : List Int, newPolynomial (.vectorInt p) = .ok (.Polynomial p)) ∧
    (∀ value : Any,
      ((¬ ∃ c, value = .int c) →
        TFactory.new.CreateObject "const" value = .error .bad_any_cast ∧
        TFactory.new.CreateObject "power" value = .error .bad_any_cast ∧
        TFactory.new.CreateObject "exp" value = .error .bad_any_cast) ∧
      ((¬ ∃ p, value = .vectorInt p) →
        TFactory.new.CreateObject "polynomial" value = .error .bad_any_cast)) ∧
    TFactory.new.CreateObjectDefault "const" = .error .bad_any_cast ∧
    TFactory.new.CreateObjectDefault "power" = .error .bad_any_cast ∧
    TFactory.new.CreateObjectDefault "exp" = .error .bad_any_cast ∧
    TFactory.new.CreateObjectDefault "polynomial" = .error .bad_any_cast ∧
    TFactory.new.CreateObjectDefault "ident" = .ok (some .Ident) := by
  refine ⟨?_, fun _ => ⟨rfl, rfl, rfl⟩, fun _ => rfl, ?_, rfl, rfl, rfl, rfl, rfl⟩
  · intro value
    cases value <;>
      simp [newConst, newPower, newExp, newPolynomial, newIdent, anyCastInt, anyCastVectorInt,
        bind, Except.bind, pure, Except.pure]
  · intro value
    constructor
    · intro h
      cases value with
      | int v => exact absurd ⟨v, rfl⟩ h
      | _ => exact ⟨rfl, rfl, rfl⟩
    · intro h
      cases value with
      | vectorInt v => exact absurd ⟨v, rfl⟩ h
      | _ => rfl

/-! ## Power and Exponential -/

/-- C16.  For every integer `k` and real `x`, `Exponential(k)` evaluates to
`e^(k*x)` and differentiates to `k * e^(k*x)`, which is the derivative of the
former; for `k = 2`, `x = 2` the value is within 0.01 of 54.598 and the
derivative within 0.01 of 109.196. -/
theorem C16_exponential_rules :
    (∀ (k : Int) (x : ℝ),
      (Function.Exp k).call Real.exp x = Real.exp ((k : ℝ) * x) ∧
      (Function.Exp k).GetDeriv Real.exp x = (k : ℝ) * Real.exp ((k : ℝ) * x) ∧
      HasDerivAt (fun y => (Function.Exp k).call Real.exp y)
        ((Function.Exp k).GetDeriv Real.exp x) x) ∧
    |(Function.Exp 2).call Real.exp (2 : ℝ) - 54.598| ≤ 0.01 ∧
    |(Function.Exp 2).GetDeriv Real.exp (2 : ℝ) - 109.196| ≤ 0.01 := by
  have h4 : Real.exp 4 = Real.exp 1 ^ 4 := by
    rw [← Real.exp_nat_mul]
    norm_num
  have hlo : (54.598 : ℝ) ≤ Real.exp 4 := by
    rw [h4]
    calc (54.598 : ℝ) ≤ 2.7182818283 ^ 4 := by norm_num
      _ ≤ Real.exp 1 ^ 4 := pow_le_pow_left₀ (by norm_num) Real.exp_one_gt_d9.le 4
  have hhi : Real.exp 4 ≤ (54.599 : ℝ) := by
    rw [h4]
    calc Real.exp 1 ^ 4 ≤ 2.7182818286 ^ 4 :=
          pow_le_pow_left₀ (Real.exp_pos 1).le Real.exp_one_lt_d9.le 4
      _ ≤ (54.599 : ℝ) := by norm_num
  have hval : (Function.Exp 2).call Real.exp (2 : ℝ) = Real.exp 4 := by
    simp only [Function.call]
    norm_num
  have hder : (Function.Exp 2).GetDeriv Real.exp (2 : ℝ) = 2 * Real.exp 4 := by
    simp only [Function.GetDeriv]
    norm_num
  refine ⟨fun k x => ⟨rfl, rfl, ?_⟩, ?_, ?_⟩
  · exact call_hasDerivAt (.Exp k) x (by simp [Function.quotientFree])
      (by simp [Function.derivInRange])
  · rw [hval, abs_le]
    constructor <;> linarith
  · rw [hder, abs_le]
    constructor <;> linarith

/-! ## Newton's method: termination and fixed points -/

/-- C17.  `NewtonMethod` returns for every `f`, `x0`, `eps` and every integer
`iter`: its loop body runs at least once and at most `max(1, iter)` times, and
exactly `max(1, iter)` times when `|f(x)|` never drops to `eps` at an
iterate. -/
theorem C17_newton_terminates (K : Type) [LinearOrderedField K] (exp : K → K) (f : Function)
    (x0 : K) (iter : Int) (eps : K) :
    ∃ (x : K) (steps : Int),
      NewtonLoop exp f iter eps x0 0 = (x, steps) ∧ NewtonMethod exp f x0 iter eps = x ∧
      1 ≤ steps ∧ steps ≤ max 1 iter ∧
      ((∀ j : Nat, 1 ≤ j → eps < abs (f.call exp (newtonIterate exp f x0 j))) →
        steps = max 1 iter) := by
  obtain ⟨m, hm1, hrun, hstop, hmin⟩ := NewtonLoop_spec exp f iter eps _ x0 0 rfl
  simp only [zero_add] at hrun hstop hmin
  have hle : (m : Int) ≤ max 1 iter := by
    by_cases hm : m = 1
    · subst hm
      exact le_max_left _ _
    · have hprev := hmin (m - 1) (by omega) (by omega)
      have hlt : ¬ (iter ≤ ((m - 1 : Nat) : Int)) := fun hh => hprev (Or.inr hh)
      exact le_trans (by omega) (le_max_right _ _)
  refine ⟨_, _, hrun, by rw [NewtonMethod, hrun], by exact_mod_cast hm1, hle, ?_⟩
  intro hnever
  rcases hstop with h | h
  · exact absurd (hnever m hm1) (not_lt.mpr h)
  · apply le_antisymm hle
    exact max_le (by exact_mod_cast hm1) h

theorem derivCoefficients_length (p : List Int) :
    (derivCoefficients p).length = p.length - 1 := by
  simp [derivCoefficients]

theorem derivCoefficients_getD (p : List Int) (i : Nat) (h : i < p.length - 1) :
    (derivCoefficients p).getD i 0 = ((i + 1 : Nat) : Int) * p.getD (i + 1) 0 := by
  simp [derivCoefficients, List.getD_eq_getElem?_getD, List.getElem?_map, List.getElem?_range h]

theorem polynomial_GetDeriv_eq_call {K : Type} [Field K] (exp : K → K) (p : List Int) (x : K)
    (hfit : polyDerivFits (p.drop 1) 1) :
    (Function.Polynomial p).GetDeriv exp x
      = (Function.Polynomial (derivCoefficients p)).call exp x := by
  rw [polynomial_GetDeriv_eq exp p x hfit, polynomial_call_eq, derivCoefficients_length]
  apply Finset.sum_congr rfl
  intro i hi
  rw [derivCoefficients_getD p i (Finset.mem_range.mp hi)]
  push_cast
  ring

/-! ## Finite values of `Double` -/

theorem Double.value_ofSigned {K : Type} [LinearOrderedField K] (s : Bool) (v : K) :
    (Double.ofSigned s v).value = some v := by
  unfold Double.ofSigned
  split_ifs with h
  · simp [Double.value, h]
  · rfl

theorem Double.value_ofField {K : Type} [LinearOrderedField K] (v : K) :
    (Double.ofField v).value = some v :=
  Double.value_ofSigned false v

theorem Double.value_ofInt {K : Type} [LinearOrderedField K] (c : Int) :
    (Double.ofInt c : Double K).value = some (c : K) :=
  Double.value_ofSigned false _

theorem Double.value_add {K : Type} [LinearOrderedField K] {a b : Double K} {va vb : K}
    (ha : a.value = some va) (hb : b.value = some vb) :
    (Double.add a b).value = some (va + vb) := by
  cases a <;> cases b <;> simp [Double.value] at ha hb <;> subst ha <;> subst hb <;>
    first
    | exact Double.value_ofSigned _ _
    | simp [Double.add, Double.value]

theorem Double.value_neg {K : Type} [LinearOrderedField K] {a : Double K} {va : K}
    (ha : a.value = some va) : (Double.neg a).value = some (-va) := by
  cases a <;> simp [Double.value] at ha <;> subst ha <;> simp [Double.neg, Double.value]

theorem Double.value_sub {K : Type} [LinearOrderedField K] {a b : Double K} {va vb : K}
    (ha : a.value = some va) (hb : b.value = some vb) :
    (Double.sub a b).value = some (va - vb) := by
  rw [Double.sub, Double.value_add ha (Double.value_neg hb), sub_eq_add_neg]

theorem Double.value_mul {K : Type} [LinearOrderedField K] {a b : Double K} {va vb : K}
    (ha : a.value = some va) (hb : b.value = some vb) :
    (Double.mul a b).value = some (va * vb) := by
  cases a <;> cases b <;> simp [Double.value] at ha hb <;> subst ha <;> subst hb <;>
    first
    | exact Double.value_ofSigned _ _
    | simp [Double.mul, Double.value]

theorem Double.value_div {K : Type} [LinearOrderedField K] {a b : Double K} {va vb : K}
    (ha : a.value = some va) (hb : b.value = some vb) (hvb : vb ≠ 0) :
    (Double.div a b).value = some (va / vb) := by
  cases a <;> cases b <;> simp [Double.value] at ha hb <;> subst ha <;> subst hb <;>
    first
    | exact absurd rfl hvb
    | exact Double.value_ofSigned _ _
    | simp [Double.div, Double.value]

theorem Double.value_pow {K : Type} [LinearOrderedField K] {x : Double K} {v : K} (n : Int)
    (hx : x.value = some v) (hn : v ≠ 0 ∨ 0 ≤ n) :
    (Double.pow x n).value = some (v ^ n) := by
  unfold Double.pow
  by_cases h0 : n = 0
  · simp [h0, Double.value]
  · rw [if_neg h0]
    cases x with
    | nan => simp [Double.value] at hx
    | inf s => simp [Double.value] at hx
    | num w =>
      simp only [Double.value, Option.some.injEq] at hx
      subst hx
      exact Double.value_ofSigned _ _
    | zero s =>
      simp only [Double.value, Option.some.injEq] at hx
      subst hx
      have hpos : ¬ n < 0 := by
        rcases hn with h | h
        · exact absurd rfl h
        · omega
      simp [hpos, Double.value, zero_zpow n h0]

theorem Double.value_exp {K : Type} [LinearOrderedField K] (E : K → K) {x : Double K} {v : K}
    (hx : x.value = some v) : (Double.exp E x).value = some (E v) := by
  cases x <;> simp [Double.value] at hx <;> subst hx <;>
    simp [Double.exp, Double.value_ofField]

/-! ## Agreement of the two embeddings away from the poles -/

theorem ieee_polyCallLoop_value {K : Type} [LinearOrderedField K] {d : Double K} {x : K}
    (hd : d.value = some x) (l : List Int) :
    ∀ (i : Nat) (acc : Double K) (a : K), acc.value = some a →
      (IEEE.polyCallLoop d l i acc).value = some (polyCallLoop x l i a) := by
  induction l with
  | nil => intro i acc a ha; simpa [IEEE.polyCallLoop, polyCallLoop] using ha
  | cons c rest ih =>
    intro i acc a ha
    rw [IEEE.polyCallLoop, polyCallLoop]
    apply ih
    exact Double.value_add ha
      (Double.value_mul (Double.value_ofInt c)
        (Double.value_pow _ hd (Or.inr (Int.natCast_nonneg i))))

theorem ieee_polyDerivLoop_value {K : Type} [LinearOrderedField K] {d : Double K} {x : K}
    (hd : d.value = some x) (l : List Int) :
    ∀ (i : Nat) (acc : Double K) (a : K), 1 ≤ i → acc.value = some a →
      (IEEE.polyDerivLoop d l i acc).value = some (polyDerivLoop x l i a) := by
  induction l with
  | nil => intro i acc a _ ha; simpa [IEEE.polyDerivLoop, polyDerivLoop] using ha
  | cons c rest ih =>
    intro i acc a hi ha
    rw [IEEE.polyDerivLoop, polyDerivLoop]
    apply ih _ _ _ (by omega)
    exact Double.value_add ha
      (Double.value_mul (Double.value_ofInt _) (Double.value_pow _ hd (Or.inr (by omega))))

theorem ieee_call_value {K : Type} [LinearOrderedField K] (exp : K → K) (t : Function)
    {d : Double K} {x : K} (hd : d.value = some x) (hq : t.quotientFree) :
    (IEEE.call exp t d).value = some (t.call exp x) := by
  induction t with
  | Const c => exact Double.value_ofInt c
  | Ident => exact hd
  | Power n =>
    simp only [Function.quotientFree] at hq
    exact Double.value_pow n hd (Or.inr (by omega))
  | Exp k => exact Double.value_exp exp (Double.value_mul (Double.value_ofInt k) hd)
  | Polynomial p => exact ieee_polyCallLoop_value hd p 0 _ 0 rfl
  | FunctionPlus a b iha ihb => exact Double.value_add (iha hq.1) (ihb hq.2)
  | FunctionMinus a b iha ihb => exact Double.value_sub (iha hq.1) (ihb hq.2)
  | FunctionMultiply a b iha ihb => exact Double.value_mul (iha hq.1) (ihb hq.2)
  | FunctionDivide a b _ _ => exact absurd hq (by simp [Function.quotientFree])

theorem ieee_GetDeriv_value {K : Type} [LinearOrderedField K] (exp : K → K) (t : Function)
    {d : Double K} {x : K} (hd : d.value = some x) (hq : t.quotientFree)
    (hr : t.derivInRange) :
    (IEEE.GetDeriv exp t d).value = some (t.GetDeriv exp x) := by
  induction t with
  | Const c => simp [IEEE.GetDeriv, Function.GetDeriv, Double.value]
  | Ident => simp [IEEE.GetDeriv, Function.GetDeriv, Double.value]
  | Power n =>
    simp only [Function.quotientFree] at hq
    simp only [Function.derivInRange] at hr
    refine Double.value_mul (Double.value_ofInt n) (Double.value_pow _ hd (Or.inr ?_))
    rw [wrapInt_of_isInt hr]
    omega
  | Exp k =>
    exact Double.value_mul (Double.value_ofInt k)
      (Double.value_exp exp (Double.value_mul (Double.value_ofInt k) hd))
  | Polynomial p => exact ieee_polyDerivLoop_value hd _ 1 _ 0 (le_refl 1) rfl
  | FunctionPlus a b iha ihb => exact Double.value_add (iha hq.1 hr.1) (ihb hq.2 hr.2)
  | FunctionMinus a b iha ihb => exact Double.value_sub (iha hq.1 hr.1) (ihb hq.2 hr.2)
  | FunctionMultiply a b iha ihb =>
    exact Double.value_add
      (Double.value_mul (iha hq.1 hr.1) (ieee_call_value exp b hd hq.2))
      (Double.value_mul (ieee_call_value exp a hd hq.1) (ihb hq.2 hr.2))
  | FunctionDivide a b _ _ => exact absurd hq (by simp [Function.quotientFree])

/-! ## Newton's method on `Double` -/

theorem residualStops_iff {K : Type} [LinearOrderedField K] (y : Double K) (eps : K) :
    ¬ (Double.gt (Double.fabs y) (Double.ofField eps) = true) ↔ residualStops y eps := by
  cases y <;> by_cases h : eps = 0 <;>
    simp [Double.gt, Double.fabs, Double.ofField, Double.ofSigned, Double.toField,
      Double.value, residualStops, h]

theorem ieee_NewtonLoop_continue {K : Type} [LinearOrderedField K] (exp : K → K)
    (f : Function) (iter : Int) (eps x0 x1 : Double K) (step : Int)
    (hx : Double.sub x0 (Double.div (IEEE.call exp f x0) (IEEE.GetDeriv exp f x0)) = x1)
    (hc : Double.gt (Double.fabs (IEEE.call exp f x1)) eps = true) (hs : step + 1 < iter) :
    IEEE.NewtonLoop exp f iter eps x0 step = IEEE.NewtonLoop exp f iter eps x1 (step + 1) := by
  rw [IEEE.NewtonLoop]
  simp only [hx]
  rw [dif_pos ⟨hc, hs⟩]

theorem ieee_NewtonLoop_stop {K : Type} [LinearOrderedField K] (exp : K → K)
    (f : Function) (iter : Int) (eps x0 x1 : Double K) (step : Int)
    (hx : Double.sub x0 (Double.div (IEEE.call exp f x0) (IEEE.GetDeriv exp f x0)) = x1)
    (hc : ¬ (Double.gt (Double.fabs (IEEE.call exp f x1)) eps = true ∧ step + 1 < iter)) :
    IEEE.NewtonLoop exp f iter eps x0 step = (x1, step + 1) := by
  rw [IEEE.NewtonLoop]
  simp only [hx]
  rw [dif_neg hc]

theorem ieee_newtonIterate_succ_left {K : Type} [LinearOrderedField K] (exp : K → K)
    (f : Function) (x : Double K) (k : Nat) :
    IEEE.newtonIterate exp f x (k + 1)
      = IEEE.newtonIterate exp f
          (Double.sub x (Double.div (IEEE.call exp f x) (IEEE.GetDeriv exp f x))) k := by
  induction k with
  | zero => rfl
  | succ k ih =>
    rw [IEEE.newtonIterate, ih]
    rfl

theorem ieee_NewtonLoop_spec {K : Type} [LinearOrderedField K] (exp : K → K) (f : Function)
    (iter : Int) (eps : Double K) :
    ∀ (n : Nat) (x : Double K) (step : Int), (iter - step).toNat = n →
      ∃ m : Nat, 1 ≤ m ∧
        IEEE.NewtonLoop exp f iter eps x step
          = (IEEE.newtonIterate exp f x m, step + (m : Int)) ∧
        (¬ (Double.gt (Double.fabs (IEEE.call exp f (IEEE.newtonIterate exp f x m))) eps = true)
          ∨ iter ≤ step + (m : Int)) ∧
        ∀ j : Nat, 1 ≤ j → j < m →
          ¬ (¬ (Double.gt (Double.fabs (IEEE.call exp f (IEEE.newtonIterate exp f x j))) eps
                  = true)
              ∨ iter ≤ step + (j : Int)) := by
  intro n
  induction n using Nat.strong_induction_on with
  | _ n ih =>
    intro x step hn
    by_cases hc : Double.gt (Double.fabs (IEEE.call exp f
          (Double.sub x (Double.div (IEEE.call exp f x) (IEEE.GetDeriv exp f x))))) eps = true
        ∧ step + 1 < iter
    · obtain ⟨m, hm1, hrun, hstop, hmin⟩ :=
        ih (iter - (step + 1)).toNat (by omega)
          (Double.sub x (Double.div (IEEE.call exp f x) (IEEE.GetDeriv exp f x)))
          (step + 1) rfl
      refine ⟨m + 1, by omega, ?_, ?_, ?_⟩
      · rw [ieee_NewtonLoop_continue exp f iter eps x _ step rfl hc.1 hc.2, hrun,
          ieee_newtonIterate_succ_left]
        congr 1
        push_cast
        ring
      · rw [ieee_newtonIterate_succ_left]
        rcases hstop with h | h
        · exact Or.inl h
        · right
          push_cast
          omega
      · intro j hj1 hjm
        obtain ⟨i, rfl⟩ : ∃ i, j = i + 1 := ⟨j - 1, by omega⟩
        rw [ieee_newtonIterate_succ_left]
        rcases Nat.eq_zero_or_pos i with hi | hi
        · subst hi
          simp only [IEEE.newtonIterate]
          rintro (h | h)
          · exact h hc.1
          · push_cast at h
            omega
        · have := hmin i hi (by omega)
          rintro (h | h)
          · exact this (Or.inl h)
          · apply this
            right
            push_cast at h
            omega
    · refine ⟨1, le_refl 1, ?_, ?_, ?_⟩
      · rw [ieee_NewtonLoop_stop exp f iter eps x _ step rfl hc]
        rfl
      · simp only [IEEE.newtonIterate]
        by_cases h : Double.gt (Double.fabs (IEEE.call exp f
            (Double.sub x (Double.div (IEEE.call exp f x) (IEEE.GetDeriv exp f x))))) eps = true
        · right
          have h1 : ¬ (step + 1 < iter) := fun hs => hc ⟨h, hs⟩
          push_cast
          omega
        · exact Or.inl h
      · intro j hj1 hj2
        omega

/-- C4 (amended).  With `x_0 = x0` and `x_{k+1} = x_k - f(x_k)/f'(x_k)` in
`double` arithmetic, `NewtonMethod` returns `x_k` for the least `k ≥ 1` such
that the loop test `|f(x_k)| > eps` fails (`|f(x_k)| ≤ eps`, or `f(x_k)` is
NaN) or `k ≥ iter`, after `k` updates; so on return `|f(result)| ≤ eps`, or
`f(result)` is NaN, or exactly `max(1, iter)` updates were performed. -/
theorem C4_newton_returns_first_iterate_failing_test (K : Type) [LinearOrderedField K]
    (exp : K → K) (f : Function) (x0 : K) (iter : Int) (eps : K) :
    ∃ k : Nat, 1 ≤ k ∧
      IEEE.NewtonMethod exp f (Double.ofField x0) iter (Double.ofField eps)
        = IEEE.newtonIterate exp f (Double.ofField x0) k ∧
      (IEEE.NewtonLoop exp f iter (Double.ofField eps) (Double.ofField x0) 0).2 = (k : Int) ∧
      (residualStops (IEEE.call exp f (IEEE.newtonIterate exp f (Double.ofField x0) k)) eps
        ∨ iter ≤ (k : Int)) ∧
      (∀ j : Nat, 1 ≤ j → j < k →
        ¬ (residualStops (IEEE.call exp f (IEEE.newtonIterate exp f (Double.ofField x0) j)) eps
            ∨ iter ≤ (j : Int))) ∧
      (residualStops
          (IEEE.call exp f
            (IEEE.NewtonMethod exp f (Double.ofField x0) iter (Double.ofField eps))) eps
        ∨ (k : Int) = max 1 iter) := by
  obtain ⟨m, hm1, hrun, hstop, hmin⟩ :=
    ieee_NewtonLoop_spec exp f iter (Double.ofField eps) _ (Double.ofField x0) 0 rfl
  simp only [zero_add, residualStops_iff] at hrun hstop hmin
  have hres : IEEE.NewtonMethod exp f (Double.ofField x0) iter (Double.ofField eps)
      = IEEE.newtonIterate exp f (Double.ofField x0) m := by
    rw [IEEE.NewtonMethod, hrun]
  refine ⟨m, hm1, hres, by rw [hrun], hstop, hmin, ?_⟩
  rw [hres]
  rcases hstop with h | h
  · exact Or.inl h
  · by_cases hm : m = 1
    · right
      subst hm
      rw [max_eq_left (by exact_mod_cast h)]
      rfl
    · have hprev := hmin (m - 1) (by omega) (by omega)
      have hlt : ¬ (iter ≤ ((m - 1 : Nat) : Int)) := fun hh => hprev (Or.inr hh)
      right
      rw [max_eq_right (by omega)]
      omega

theorem nanTest_call_one :
    IEEE.call Real.exp (.Polynomial [1, 0, 1]) (Double.ofField (1 : ℝ)) = Double.num 2 := by
  simp [IEEE.call, IEEE.polyCallLoop, Double.ofField, Double.ofSigned, Double.ofInt,
    Double.add, Double.mul, Double.pow, Double.sign]
  norm_num

theorem nanTest_GetDeriv_one :
    IEEE.GetDeriv Real.exp (.Polynomial [1, 0, 1]) (Double.ofField (1 : ℝ)) = Double.num 2 := by
  simp [IEEE.GetDeriv, IEEE.polyDerivLoop, Double.ofField, Double.ofSigned, Double.ofInt,
    Double.add, Double.mul, Double.pow, Double.sign, wrapInt]

theorem nanTest_call_zero :
    IEEE.call Real.exp (.Polynomial [1, 0, 1]) (Double.zero false : Double ℝ)
      = Double.num 1 := by
  simp [IEEE.call, IEEE.polyCallLoop, Double.ofField, Double.ofSigned, Double.ofInt,
    Double.add, Double.mul, Double.pow, Double.sign]

theorem nanTest_GetDeriv_zero :
    IEEE.GetDeriv Real.exp (.Polynomial [1, 0, 1]) (Double.zero false : Double ℝ)
      = Double.zero false := by
  simp [IEEE.GetDeriv, IEEE.polyDerivLoop, Double.ofField, Double.ofSigned, Double.ofInt,
    Double.add, Double.mul, Double.pow, Double.sign, wrapInt]

theorem nanTest_call_negInf :
    IEEE.call Real.exp (.Polynomial [1, 0, 1]) (Double.inf true : Double ℝ) = Double.nan := by
  simp [IEEE.call, IEEE.polyCallLoop, Double.ofField, Double.ofSigned, Double.ofInt,
    Double.add, Double.mul, Double.pow, Double.sign]

theorem nanTest_run :
    IEEE.NewtonLoop Real.exp (.Polynomial [1, 0, 1]) 5 (Double.ofField (0.1 : ℝ))
        (Double.ofField 1) 0
      = (Double.inf true, 2) := by
  rw [ieee_NewtonLoop_continue Real.exp _ 5 _ (Double.ofField 1) (Double.zero false) 0
        (by
          rw [nanTest_call_one, nanTest_GetDeriv_one]
          simp [Double.sub, Double.div, Double.add, Double.neg, Double.ofField,
            Double.ofSigned])
        (by
          rw [nanTest_call_zero]
          simp [Double.gt, Double.fabs, Double.ofField, Double.ofSigned, Double.toField]
          norm_num)
        (by decide),
      ieee_NewtonLoop_stop Real.exp _ 5 _ (Double.zero false) (Double.inf true) _
        (by
          rw [nanTest_call_zero, nanTest_GetDeriv_zero]
          simp [Double.sub, Double.div, Double.add, Double.neg, Double.sign])
        (by
          rw [nanTest_call_negInf]
          simp [Double.gt, Double.fabs])]
  rfl

/-- C4 (counterexample).  For `f = Polynomial([1,0,1])`, `x0 = 1`, `iter = 5`
and `eps = 0.1` the derivative is zero at the first iterate 0, the second
iterate is `-inf` and `f(-inf)` is NaN: the loop test fails and `NewtonMethod`
returns `-inf` after 2 updates, where `|f(result)| ≤ eps` does not hold and
`max(1, iter)` is 5. -/
theorem C4_newton_nan_exit :
    IEEE.NewtonLoop Real.exp (.Polynomial [1, 0, 1]) 5 (Double.ofField (0.1 : ℝ))
        (Double.ofField 1) 0
      = (Double.inf true, 2) ∧
    IEEE.NewtonMethod Real.exp (.Polynomial [1, 0, 1]) (Double.ofField (1 : ℝ)) 5
        (Double.ofField 0.1)
      = Double.inf true ∧
    IEEE.call Real.exp (.Polynomial [1, 0, 1])
        (IEEE.NewtonMethod Real.exp (.Polynomial [1, 0, 1]) (Double.ofField (1 : ℝ)) 5
          (Double.ofField 0.1))
      = Double.nan ∧
    ¬ (∃ v : ℝ,
        (IEEE.call Real.exp (.Polynomial [1, 0, 1])
          (IEEE.NewtonMethod Real.exp (.Polynomial [1, 0, 1]) (Double.ofField (1 : ℝ)) 5
            (Double.ofField 0.1))).value = some v ∧ |v| ≤ 0.1) ∧
    (2 : Int) ≠ max 1 5 := by
  have hm : IEEE.NewtonMethod Real.exp (.Polynomial [1, 0, 1]) (Double.ofField (1 : ℝ)) 5
      (Double.ofField 0.1) = Double.inf true := by
    rw [IEEE.NewtonMethod, nanTest_run]
  refine ⟨nanTest_run, hm, ?_, ?_, by decide⟩
  · rw [hm, nanTest_call_negInf]
  · rw [hm, nanTest_call_negInf]
    simp [Double.value]

/-! ## Power on `Double` -/

theorem power_call_value {K : Type} [LinearOrderedField K] (exp : K → K) (n : Int) (x : K)
    (h : x ≠ 0 ∨ 0 ≤ n) :
    (IEEE.call exp (.Power n) (Double.ofField x)).value = some (x ^ n) :=
  Double.value_pow n (Double.value_ofField x) h

theorem power_GetDeriv_value {K : Type} [LinearOrderedField K] (exp : K → K) (n : Int) (x : K)
    (h : x ≠ 0 ∨ 0 ≤ wrapInt (n - 1)) :
    (IEEE.GetDeriv exp (.Power n) (Double.ofField x)).value
      = some ((n : K) * x ^ wrapInt (n - 1)) :=
  Double.value_mul (Double.value_ofInt n) (Double.value_pow _ (Double.value_ofField x) h)

/-- C15 (counterexample).  `Power(0).GetDeriv(0)` evaluates `0 * pow(0, -1)`,
where `pow(0, -1)` is `+inf`, and returns NaN, not 0; `Power(-1)` evaluates to
`+inf` at 0.  For the `int` `n = -2147483648` the difference `_power - 1`
leaves the `int` range and `GetDeriv` returns `n * 2^2147483647` at 2, not
`n * 2^(n-1)`. -/
theorem C15_power_getDeriv_counterexample :
    IEEE.GetDeriv Real.exp (.Power 0) (Double.ofField (0 : ℝ)) = Double.nan ∧
    (IEEE.GetDeriv Real.exp (.Power 0) (Double.ofField (0 : ℝ))).value ≠ some 0 ∧
    IEEE.call Real.exp (.Power (-1)) (Double.ofField (0 : ℝ)) = Double.inf false ∧
    isInt (-2147483648) ∧
    (IEEE.GetDeriv Real.exp (.Power (-2147483648)) (Double.ofField (2 : ℝ))).value
      = some ((-2147483648) * (2 : ℝ) ^ (2147483647 : ℤ)) ∧
    (IEEE.GetDeriv Real.exp (.Power (-2147483648)) (Double.ofField (2 : ℝ))).value
      ≠ some ((-2147483648) * (2 : ℝ) ^ ((-2147483648 : ℤ) - 1)) := by
  have hnan : IEEE.GetDeriv Real.exp (.Power 0) (Double.ofField (0 : ℝ)) = Double.nan := by
    have hw0 : wrapInt (0 - 1) = -1 := by decide
    simp only [IEEE.GetDeriv, hw0]
    simp [Double.pow, Double.mul, Double.ofInt, Double.ofField, Double.ofSigned]
  have hw : wrapInt (-2147483648 - 1) = 2147483647 := by decide
  have hcode : (IEEE.GetDeriv Real.exp (.Power (-2147483648)) (Double.ofField (2 : ℝ))).value
      = some ((-2147483648) * (2 : ℝ) ^ (2147483647 : ℤ)) := by
    rw [power_GetDeriv_value Real.exp _ _ (Or.inl (by norm_num)), hw]
    rw [show ((-2147483648 : ℤ) : ℝ) = -2147483648 by norm_num]
  refine ⟨hnan, ?_, ?_, by decide, hcode, ?_⟩
  · rw [hnan]
    simp [Double.value]
  · simp [IEEE.call, Double.pow, Double.ofField, Double.ofSigned]
  · rw [hcode]
    intro h
    have h1 := Option.some.inj h
    have h2 : (2 : ℝ) ^ (2147483647 : ℤ) = (2 : ℝ) ^ ((-2147483648 : ℤ) - 1) :=
      mul_left_cancel₀ (by norm_num) h1
    have h3 := (zpow_right_inj₀ (by norm_num : (0 : ℝ) < 2) (by norm_num)).mp h2
    omega

/-- C15 (amended).  For every `n` and every number `x` with `x ≠ 0` or
`n ≥ 0`, `Power(n)` evaluates to the number `x^n`; for every `int` `n` other
than `-2147483648` and every `x` with `x ≠ 0` or `n ≥ 1`, `Power(n)`
differentiates to the number `n * x^(n-1)`. -/
theorem C15_power_rules (K : Type) [LinearOrderedField K] (exp : K → K) (n : Int) (x : K) :
    ((x ≠ 0 ∨ 0 ≤ n) →
      (IEEE.call exp (.Power n) (Double.ofField x)).value = some (x ^ n)) ∧
    (isInt n → n ≠ -2147483648 → (x ≠ 0 ∨ 1 ≤ n) →
      (IEEE.GetDeriv exp (.Power n) (Double.ofField x)).value = some ((n : K) * x ^ (n - 1))) := by
  refine ⟨power_call_value exp n x, ?_⟩
  intro hn hmin hx
  have hw : wrapInt (n - 1) = n - 1 := by
    apply wrapInt_of_isInt
    unfold isInt at hn ⊢
    omega
  have h := power_GetDeriv_value exp n x (by rw [hw]; rcases hx with h | h; exact Or.inl h; right; omega)
  rw [hw] at h
  exact h

/-- Witness of C15: `Power(3)` evaluates to 27 at 3 and differentiates to 12
at 2, `Power(1)` differentiates to 1 at 0, and for the exponents 0..4 and the
arguments -3, 0, 1, 3 `Power(n)` evaluates to `x^n` and, except at
`(n, x) = (0, 0)`, differentiates to `n * x^(n-1)`. -/
theorem C15_power_rules_witness :
    (IEEE.call Real.exp (.Power 3) (Double.ofField (3 : ℝ))).value = some 27 ∧
    (IEEE.GetDeriv Real.exp (.Power 3) (Double.ofField (2 : ℝ))).value = some 12 ∧
    (IEEE.GetDeriv Real.exp (.Power 1) (Double.ofField (0 : ℝ))).value = some 1 ∧
    (∀ n ∈ ([0, 1, 2, 3, 4] : List Int), ∀ x ∈ ([-3, 0, 1, 3] : List ℝ),
      (IEEE.call Real.exp (.Power n) (Double.ofField x)).value = some (x ^ n) ∧
      ((n, x) ≠ (0, 0) →
        (IEEE.GetDeriv Real.exp (.Power n) (Double.ofField x)).value
          = some ((n : ℝ) * x ^ (n - 1)))) := by
  refine ⟨?_, ?_, ?_, ?_⟩
  · rw [(C15_power_rules ℝ Real.exp 3 3).1 (Or.inr (by decide))]
    norm_num
  · rw [(C15_power_rules ℝ Real.exp 3 2).2 (by decide) (by decide) (Or.inr (by decide))]
    norm_num
  · rw [(C15_power_rules ℝ Real.exp 1 0).2 (by decide) (by decide) (Or.inr (by decide))]
    norm_num
  · intro n hn x hx
    simp only [List.mem_cons, List.mem_singleton, List.not_mem_nil, or_false] at hn hx
    have hn0 : (0 : Int) ≤ n := by rcases hn with rfl | rfl | rfl | rfl | rfl <;> decide
    have hint : isInt n := by rcases hn with rfl | rfl | rfl | rfl | rfl <;> decide
    refine ⟨(C15_power_rules ℝ Real.exp n x).1 (Or.inr hn0), fun hne => ?_⟩
    apply (C15_power_rules ℝ Real.exp n x).2 hint (by omega)
    by_cases hx0 : x = 0
    · right
      subst hx0
      rcases hn with rfl | rfl | rfl | rfl | rfl
      · exact absurd rfl hne
      all_goals decide
    · exact Or.inl hx0


theorem wrapInt_isInt (n : Int) : isInt (wrapInt n) := by
  unfold isInt wrapInt
  omega

theorem polyDerivLoop_eq_polyCallLoop {K : Type} [Field K] (x : K) (l : List Int) :
    ∀ (i : Nat) (acc : K),
      polyDerivLoop x l (i + 1) acc
        = polyCallLoop x
            ((List.range l.length).map fun j =>
              wrapInt (((i + j + 1 : Nat) : Int) * l.getD j 0)) i acc := by
  induction l with
  | nil => intro i acc; rfl
  | cons c rest ih =>
    intro i acc
    rw [polyDerivLoop, ih (i + 1), List.length_cons, List.range_succ_eq_map, List.map_cons,
      List.map_map, polyCallLoop]
    have hpow : ((i + 1 : Nat) : Int) - 1 = (i : Int) := by push_cast; ring
    have hmul : c * ((i + 1 : Nat) : Int) = ((i + 0 + 1 : Nat) : Int) * (c :: rest).getD 0 0 := by
      simp [mul_comm]
    rw [hpow, hmul]
    congr 2
    funext j
    simp only [Function.comp, List.getD_cons_succ]
    rw [show i + 1 + j + 1 = i + (j + 1) + 1 by omega]

theorem ieee_polyDerivLoop_eq_polyCallLoop {K : Type} [LinearOrderedField K] (x : Double K)
    (l : List Int) :
    ∀ (i : Nat) (acc : Double K),
      IEEE.polyDerivLoop x l (i + 1) acc
        = IEEE.polyCallLoop x
            ((List.range l.length).map fun j =>
              wrapInt (((i + j + 1 : Nat) : Int) * l.getD j 0)) i acc := by
  induction l with
  | nil => intro i acc; rfl
  | cons c rest ih =>
    intro i acc
    rw [IEEE.polyDerivLoop, ih (i + 1), List.length_cons, List.range_succ_eq_map,
      List.map_cons, List.map_map, IEEE.polyCallLoop]
    have hpow : ((i + 1 : Nat) : Int) - 1 = (i : Int) := by push_cast; ring
    have hmul : c * ((i + 1 : Nat) : Int) = ((i + 0 + 1 : Nat) : Int) * (c :: rest).getD 0 0 := by
      simp [mul_comm]
    rw [hpow, hmul]
    congr 2
    funext j
    simp only [Function.comp, List.getD_cons_succ]
    rw [show i + 1 + j + 1 = i + (j + 1) + 1 by omega]

theorem intDerivCoefficients_eq (p : List Int) :
    intDerivCoefficients p
      = (List.range (p.drop 1).length).map fun j =>
          wrapInt (((0 + j + 1 : Nat) : Int) * (p.drop 1).getD j 0) := by
  cases p with
  | nil => rfl
  | cons a rest =>
    simp only [intDerivCoefficients, List.length_cons, Nat.add_sub_cancel, List.drop_succ_cons,
      List.drop_zero, List.getD_cons_succ, zero_add]

theorem polyDerivFits_getD (l : List Int) :
    ∀ i : Nat, polyDerivFits l (i + 1) →
      ∀ j : Nat, j < l.length → isInt (((i + j + 1 : Nat) : Int) * l.getD j 0) := by
  induction l with
  | nil => intro i _ j hj; simp at hj
  | cons c rest ih =>
    intro i hfit j hj
    obtain ⟨hc, hrest⟩ := hfit
    cases j with
    | zero => simpa [mul_comm] using hc
    | succ k =>
      have h := ih (i + 1) hrest k (by simpa using hj)
      rw [List.getD_cons_succ, show i + (k + 1) + 1 = i + 1 + k + 1 by omega]
      exact h

theorem polyDerivFits_wrap (l : List Int) (i : Nat) (hfit : polyDerivFits l (i + 1)) :
    ((List.range l.length).map fun j => wrapInt (((i + j + 1 : Nat) : Int) * l.getD j 0))
      = (List.range l.length).map fun j => ((i + j + 1 : Nat) : Int) * l.getD j 0 := by
  apply List.map_congr_left
  intro j hj
  exact wrapInt_of_isInt (polyDerivFits_getD l i hfit j (List.mem_range.mp hj))

/-- C20.  For every coefficient sequence `[a0, a1, ..., an]` and every `x`,
`Polynomial([a0..an]).GetDeriv(x)` equals the value at `x` of the Polynomial of
the coefficients `[1*a1, 2*a2, ..., n*an]`, the products being formed in
`int` as the vector holds them, in exact arithmetic and operation by
operation on `double`; the products are the exact integers `i*a_i` whenever
these fit in an `int`; and `GetDeriv` is 0 for a one-coefficient polynomial. -/
theorem C20_getDeriv_is_call_of_derivative_polynomial :
    (∀ (K : Type) [Field K] (exp : K → K) (p : List Int) (x : K),
      (Function.Polynomial p).GetDeriv exp x
        = (Function.Polynomial (intDerivCoefficients p)).call exp x) ∧
    (∀ (K : Type) [LinearOrderedField K] (exp : K → K) (p : List Int) (x : Double K),
      IEEE.GetDeriv exp (.Polynomial p) x
        = IEEE.call exp (.Polynomial (intDerivCoefficients p)) x) ∧
    (∀ p : List Int, ∀ c ∈ intDerivCoefficients p, isInt c) ∧
    (∀ p : List Int, polyDerivFits (p.drop 1) 1 →
      intDerivCoefficients p = derivCoefficients p) ∧
    (∀ (K : Type) [Field K] (exp : K → K) (a0 : Int) (x : K),
      (Function.Polynomial [a0]).GetDeriv exp x = 0) ∧
    intDerivCoefficients [1, 2, 3] = [2, 6] := by
  refine ⟨?_, ?_, ?_, ?_, fun K _ exp a0 x => rfl, by decide⟩
  · intro K _ exp p x
    simp only [Function.GetDeriv, Function.call]
    rw [polyDerivLoop_eq_polyCallLoop x (p.drop 1) 0 0, ← intDerivCoefficients_eq]
  · intro K _ exp p x
    simp only [IEEE.GetDeriv, IEEE.call]
    rw [ieee_polyDerivLoop_eq_polyCallLoop x (p.drop 1) 0 _, ← intDerivCoefficients_eq]
  · intro p c hc
    simp only [intDerivCoefficients, List.mem_map] at hc
    obtain ⟨j, _, rfl⟩ := hc
    exact wrapInt_isInt _
  · intro p hfit
    rw [intDerivCoefficients_eq, polyDerivFits_wrap (p.drop 1) 0 hfit]
    cases p with
    | nil => rfl
    | cons a rest =>
      simp only [derivCoefficients, List.length_cons, Nat.add_sub_cancel, List.drop_succ_cons,
        List.drop_zero, List.getD_cons_succ, zero_add]

end CppMsu
